import Mathlib

/-!
Verification of the type-dependency sorter, the type-name mapper and the
template-rendering driver of the `xmlschema_codegen` package
(`src/xmlschema_codegen/abstract_generator.py`).

Python schema objects are embedded shallowly: an `XsdType` is identified by a
natural number `id` standing for its Python object identity (two distinct
objects always have distinct identities, the same object always has the same
identity).  Dictionary keying of `XsdType` objects in the source uses object
identity, hence it is rendered here by comparing `id` fields.
-/

/-- Shallow embedding of an `xmlschema` `XsdType` as consumed by
`AbstractGenerator.sorted_types`: `id` is the Python object identity,
`is_simple` is the result of `x.is_simple()` (`x.is_complex()` is its
negation for schema types), `has_simple_content` the result of
`x.has_simple_content()`, and `content_elems` lists the object identities of
`e.type` for `e` in `x.content_type.iter_elements()`. -/
structure XsdType where
  id : Nat
  is_simple : Bool
  has_simple_content : Bool
  content_elems : List Nat
deriving DecidableEq, Repr

/-- The source's `x.is_complex()`: for schema types the negation of
`x.is_simple()`. -/
def XsdType.is_complex (x : XsdType) : Bool := !x.is_simple

/-- The membership test of the working-set dictionary comprehension at line
417 of `abstract_generator.py`: complex type with non-simple (structured)
content. -/
def XsdType.structured (x : XsdType) : Bool := x.is_complex && !x.has_simple_content

/-- The `unordered` dictionary of `sorted_types`: association list from an
`XsdType` key to its current dependency list (object identities of child
element types), in insertion order, as a Python `dict` keeps it. -/
abbrev DepMap := List (XsdType × List Nat)

/-- Python `unordered[x]` access, keyed by object identity. -/
def lookupDeps : DepMap → Nat → Option (List Nat)
  | [], _ => none
  | (t, ds) :: rest, i => if t.id = i then some ds else lookupDeps rest i

/-- Python `x in unordered`, keyed by object identity. -/
def keyMem (u : DepMap) (i : Nat) : Bool := (lookupDeps u i).isSome

/-- Python `del unordered[x]`, keyed by object identity. -/
def eraseKey : DepMap → Nat → DepMap
  | [], _ => []
  | (t, ds) :: rest, i => if t.id = i then rest else (t, ds) :: eraseKey rest i

/-- One insertion step of the dictionary comprehension
`{x: [] for x in xsd_types if ...}`: a key already present keeps its position
(its value is `[]` in both cases). -/
def insertKey (u : DepMap) (x : XsdType) : DepMap :=
  if keyMem u x.id then u else u ++ [(x, [])]

/-- The dictionary comprehension at line 417:
`unordered = {x: [] for x in xsd_types if x.is_complex() and not x.has_simple_content()}`. -/
def initUnordered (xsd_types : List XsdType) : DepMap :=
  xsd_types.foldl (fun u x => if x.structured then insertKey u x else u) []

/-- The keys of the working set, in insertion order (`list(unordered)`). -/
def keysOf (u : DepMap) : List XsdType := u.map Prod.fst

/-- The dependency-building loop at lines 419-422: for each key, append the
object identity of every child element type that is itself a key of the
working set. -/
def buildDeps (u : DepMap) : DepMap :=
  u.map (fun p => (p.1, p.1.content_elems.filter (fun d => keyMem u d)))

/-- The removal pass at lines 426-431: iterate over the original input list;
every type currently a key of the working set whose dependency list is empty
is deleted from the working set and collected (in input order). -/
def removeReady : List XsdType → DepMap → List XsdType × DepMap
  | [], u => ([], u)
  | x :: rest, u =>
    match lookupDeps u x.id with
    | none => removeReady rest u
    | some ds =>
      if ds.isEmpty then
        let r := removeReady rest (eraseKey u x.id)
        (x :: r.1, r.2)
      else removeReady rest u

/-- The filtering pass at lines 433-434: each remaining dependency list keeps
only dependencies that are still keys of the working set. -/
def filterDeps (u : DepMap) : DepMap :=
  u.map (fun p => (p.1, p.2.filter (fun d => keyMem u d)))

/-- The `while unordered:` loop at lines 424-440, with explicit fuel.  One
fuel unit is one loop iteration; `none` means the fuel ran out (shown below
never to happen for fuel beyond the size of the working set, since every
iteration either deletes at least one key or ends the loop).  The inner
error value carries `list(unordered)`, the stuck set of the
`ValueError("Circularity found between ...")` at line 438. -/
def sortLoopF : Nat → List XsdType → Bool → List XsdType → DepMap →
    Option (Except (List XsdType) (List XsdType))
  | 0, _, _, _, _ => none
  | fuel+1, xs, acc, ordered, u =>
    match u with
    | [] => some (Except.ok ordered)
    | _ :: _ =>
      let ready := (removeReady xs u).1
      let u2 := filterDeps (removeReady xs u).2
      if ready.isEmpty then
        if acc then some (Except.ok (ordered ++ keysOf u2))
        else some (Except.error (keysOf u2))
      else sortLoopF fuel xs acc (ordered ++ ready) u2

/-- The failure modes of `sorted_types`: the `ValueError` at line 438
(carrying the stuck set) and the `assert len(xsd_types) == len(ordered_types)`
at line 442 (carrying both lengths). -/
inductive SortError where
  | circularity (stuck : List XsdType)
  | lengthAssert (expected found : Nat)
deriving DecidableEq, Repr

/-- `AbstractGenerator.sorted_types` (lines 399-443) on an input already
normalized to a list (a mapping input is normalized to `list(m.values())` at
lines 409-412; the `assert all(isinstance(x, XsdType) ...)` at line 414 is
discharged by typing).  Simple types come first in input order, then complex
types with simple content in input order, then the working set is resolved by
the fixed-point loop.  The fuel `u.length + 1` is always sufficient (theorem
`sortLoopF_isSome` below), so the `none` branch is dead. -/
def sorted_types (xsd_types : List XsdType) (accept_circularity : Bool) :
    Except SortError (List XsdType) :=
  let ordered := xsd_types.filter (fun x => x.is_simple) ++
    xsd_types.filter (fun x => x.is_complex && x.has_simple_content)
  let u := buildDeps (initUnordered xsd_types)
  match sortLoopF (u.length + 1) xsd_types accept_circularity ordered u with
  | none => Except.error (SortError.lengthAssert xsd_types.length 0)
  | some (Except.error stuck) => Except.error (SortError.circularity stuck)
  | some (Except.ok result) =>
    if result.length = xsd_types.length then Except.ok result
    else Except.error (SortError.lengthAssert xsd_types.length result.length)

/-- Shallow embedding of the one field of a base type that `map_type` reads:
its qualified name (`None` for anonymous types). -/
structure MXsdBase where
  name : Option String
deriving DecidableEq, Repr

/-- Shallow embedding of an `XsdType` as consumed by
`AbstractGenerator.map_type`: its qualified `name` (`None` for anonymous
types), its `base_type` (`None` when absent) and the result of
`is_complex()`. -/
structure MXsdType where
  name : Option String
  base_type : Option MXsdBase
  is_complex : Bool
deriving DecidableEq, Repr

/-- The duck-typed argument of `map_type`: an `XsdType`, an `XsdAttribute` or
`XsdElement` (each read through its `.type` field), or any other object. -/
inductive MapArg where
  | typeArg (t : MXsdType)
  | attributeArg (t : MXsdType)
  | elementArg (t : MXsdType)
  | otherArg
deriving DecidableEq, Repr

/-- The exceptions `map_type` can let escape: the `AttributeError` from
`xsd_type.base_type.name` when `base_type` is `None` (only `KeyError` is
caught at lines 275 and 278), and a `KeyError` from the final universal
lookups at lines 280-282 (uncaught there). -/
inductive MapError where
  | attributeError
  | keyError
deriving DecidableEq, Repr

/-- Python `dict` lookup of `self.types_map[k]` on an association list;
a `None` key is never present (the map's keys are strings). -/
def lookupMap (m : List (String × String)) (k : Option String) : Option String :=
  match k with
  | none => none
  | some s => (m.find? (fun p => p.1 = s)).map Prod.snd

/-- Modelled from the spec: `helpers.xsd_qname` (source file
`xmlschema_codegen/helpers.py` is not under `src/`) qualifies an XSD builtin
local name with the XML Schema namespace, per section 3 of the spec (the
builtin table is "namespace-qualified" and keyed by the universal
`anyType`/`anySimpleType` names). -/
def xsd_qname (local_name : String) : String :=
  "\x7bhttp://www.w3.org/2001/XMLSchema\x7d" ++ local_name

/-- `AbstractGenerator.map_type` (lines 258-282): resolve the type's
qualified name in the map, on a `KeyError` resolve the base type's qualified
name (one level), on a second `KeyError` fall back to the universal
`anyType` (complex) or `anySimpleType` (simple) entry.  Attribute and
element arguments are resolved through their `.type`; any other argument
yields the empty string. -/
def map_type (types_map : List (String × String)) (obj : MapArg) :
    Except MapError String :=
  match obj with
  | .otherArg => Except.ok ""
  | .typeArg t | .attributeArg t | .elementArg t =>
    match lookupMap types_map t.name with
    | some v => Except.ok v
    | none =>
      match t.base_type with
      | none => Except.error MapError.attributeError
      | some b =>
        match lookupMap types_map b.name with
        | some v => Except.ok v
        | none =>
          if t.is_complex then
            match lookupMap types_map (some (xsd_qname "anyType")) with
            | some v => Except.ok v
            | none => Except.error MapError.keyError
          else
            match lookupMap types_map (some (xsd_qname "anySimpleType")) with
            | some v => Except.ok v
            | none => Except.error MapError.keyError

/-- Result of `self._env.get_template(name, ...)` in `render_to_files`:
a template carrying its rendered text (rendering is delegated to Jinja2,
consumed as an external collaborator) and its `filename`, or the
`TemplateNotFound` / `TemplateAssertionError` exceptions handled at lines
239-242. -/
inductive TemplateResult where
  | found (rendered : String) (filename : String)
  | notFound
  | assertError
deriving DecidableEq, Repr

/-- Modelled from the spec: `helpers.is_shell_wildcard` (source file
`xmlschema_codegen/helpers.py` is not under `src/`) — per section 6 of the
spec, template names may be literal or shell-style wildcard patterns, so a
name is a wildcard when it holds a glob metacharacter. -/
def is_shell_wildcard (name : String) : Bool :=
  name.toList.any (fun c => c = '*' || c = '?' || c = '[')

/-- Shell-style matching of a pattern over a string (Python's
`fnmatch.fnmatch`, an external collaborator; character classes are not used
by this repository's template names and are treated literally). -/
def globMatch : List Char → List Char → Bool
  | [], [] => true
  | [], _ :: _ => false
  | '*' :: ps, [] => globMatch ps []
  | '*' :: ps, c :: cs => globMatch ps (c :: cs) || globMatch ('*' :: ps) cs
  | '?' :: _, [] => false
  | '?' :: ps, _ :: cs => globMatch ps cs
  | _ :: _, [] => false
  | p :: ps, c :: cs => (p = c) && globMatch ps cs
termination_by ps s => (ps.length, s.length)

/-- `fnmatch(x, name)` on strings. -/
def fnmatch (pattern s : String) : Bool := globMatch pattern.toList s.toList

/-- `Path(name).name`: the final path component. -/
def pathBaseName (s : String) : String := (s.splitOn "/").getLastD s

/-- `Path(...).with_suffix('')`: drop the final extension of the base name
(a leading dot does not begin an extension). -/
def dropLastExt (s : String) : String :=
  match s.splitOn "." with
  | [] => s
  | [_] => s
  | "" :: [_] => s
  | parts => String.intercalate "." (parts.dropLast)

/-- `output_dir.joinpath(name)` on string paths. -/
def joinPath (dir name : String) : String :=
  if dir = "" then name else dir ++ "/" ++ name

/-- The external effects of one `render_to_files` call: the returned list of
`template.filename` values, the text printed to stdout by `print(result)` at
line 250, and the files written to the output directory. -/
structure RenderOutcome where
  rendered : List String
  printed : List String
  written : List String
deriving DecidableEq, Repr

/-- One iteration of the template loop of `render_to_files` (lines
236-255): a template that loads has its target path computed (base filename
with its extension stripped, under the output directory) and is skipped when
the target exists and `force` is not set; otherwise the template is rendered
and the result printed.  The file write at lines 252-253 of the source is
commented out, so no file is ever written: `written` is never extended. -/
def renderStep (getTemplate : String → TemplateResult) (output_dir : String)
    (force : Bool) (existing : List String) (acc : RenderOutcome)
    (name : String) : RenderOutcome :=
  match getTemplate name with
  | .notFound => acc
  | .assertError => acc
  | .found text fname =>
    let output_file := joinPath output_dir (dropLastExt (pathBaseName name))
    if !force && existing.contains output_file then acc
    else { acc with
            rendered := acc.rendered ++ [fname]
            printed := acc.printed ++ [text] }

/-- Body of `AbstractGenerator.render_to_files` (see `renderStep` for the
per-template loop body): wildcard names are expanded against the template
list, literal names kept, and each matched template is processed in order. -/
def render_to_files (getTemplate : String → TemplateResult)
    (templateList : List String) (names : List String)
    (output_dir : String) (force : Bool) (existing : List String) :
    RenderOutcome :=
  let template_names := names.flatMap (fun n =>
    if is_shell_wildcard n then templateList.filter (fun x => fnmatch n x)
    else [n])
  template_names.foldl (renderStep getTemplate output_dir force existing)
    ⟨[], [], []⟩

/-- Ids of the working-set keys, in insertion order. -/
def keyIds (u : DepMap) : List Nat := u.map (fun p => p.1.id)

/-- A type is taken by the removal pass exactly when it is currently a key
with an empty dependency list. -/
def readyNow (u : DepMap) (x : XsdType) : Bool :=
  match lookupDeps u x.id with
  | some ds => ds.isEmpty
  | none => false

/-- Faithfulness of the embedding of Python object identity: within the
input list, equal identities mean the same object (the same record).  A list
whose elements are pairwise-distinct-or-equal Python objects always
satisfies this, even when the same object occurs twice. -/
def idCoherent (xs : List XsdType) : Prop :=
  ∀ x ∈ xs, ∀ y ∈ xs, x.id = y.id → x = y

/-- Pairwise distinct elements: all object identities in the list differ. -/
def idsNodup (xs : List XsdType) : Prop := (xs.map XsdType.id).Nodup

/-- Cross faithfulness between the input list and the working set: an input
element sharing an identity with a key is that key. -/
def idCoherentWith (xs : List XsdType) (u : DepMap) : Prop :=
  ∀ x ∈ xs, ∀ p ∈ u, x.id = (p : XsdType × List Nat).1.id → x = p.1

/-- The loop invariant of the working set: every value is exactly the list
of content-element identities that are still keys. -/
def depInv (u : DepMap) : Prop :=
  ∀ p ∈ u, (p : XsdType × List Nat).2 =
    p.1.content_elems.filter (fun d => keyMem u d)

/-- Direct dependency between members of the sorter's input: the content of
`a` references `b`. -/
def refDep (xs : List XsdType) (a b : XsdType) : Prop :=
  a ∈ xs ∧ b ∈ xs ∧ b.id ∈ a.content_elems

/-- Dependency, directly or transitively, through members of the input. -/
def dependsOn (xs : List XsdType) (a b : XsdType) : Prop :=
  Relation.TransGen (refDep xs) a b

/-- The classification bucket of a type: simple, complex with simple
content, or complex with structured content. -/
def bucketIdx (x : XsdType) : Nat :=
  if x.is_simple then 0 else if x.has_simple_content then 1 else 2

/-- The in-set direct dependencies of a type: content-element identities
that belong to structured members of the input. -/
def inSetDeps (xs : List XsdType) (x : XsdType) : List Nat :=
  x.content_elems.filter (fun d => (xs.filter XsdType.structured).any (fun y => y.id = d))

/-- A structured complex type with one content reference, to identity 1. -/
def tRefOne : XsdType := ⟨0, false, false, [1]⟩

/-- A structured complex type with one content reference, to identity 0. -/
def tRefZero : XsdType := ⟨1, false, false, [0]⟩

/-- A structured complex type with no content references. -/
def tPlain : XsdType := ⟨0, false, false, []⟩

/-- Input exhibiting reordering of independent types: `tOrdA` (structured,
referencing `tOrdC`), `tOrdS` (simple), `tOrdB` and `tOrdC` (structured, no
references). -/
def tOrdA : XsdType := ⟨0, false, false, [3]⟩

/-- Simple type of the reordering example. -/
def tOrdS : XsdType := ⟨1, true, false, []⟩

/-- Structured dependency-free type of the reordering example. -/
def tOrdB : XsdType := ⟨2, false, false, []⟩

/-- Structured dependency-free type referenced by `tOrdA`. -/
def tOrdC : XsdType := ⟨3, false, false, []⟩

/-- The reordering example input. -/
def ordInput : List XsdType := [tOrdA, tOrdS, tOrdB, tOrdC]

/-- A simple type used by witnesses. -/
def tWitS : XsdType := ⟨10, true, false, []⟩

/-- A complex type with simple content used by witnesses. -/
def tWitCS : XsdType := ⟨11, false, true, []⟩

/-- A structured type referencing `tWitD`, used by witnesses. -/
def tWitE : XsdType := ⟨12, false, false, [13]⟩

/-- A structured dependency-free type used by witnesses. -/
def tWitD : XsdType := ⟨13, false, false, []⟩

/-- A template environment with a single template, for the rendering
example. -/
def oneTemplateEnv (name : String) : TemplateResult :=
  if name = "types.f90.jinja" then TemplateResult.found "module types" "/tpl/types.f90.jinja"
  else TemplateResult.notFound

/-- A translation map holding a base-type entry and the universal
fallback entries. -/
def mapWitness : List (String × String) :=
  [("base", "B0"), (xsd_qname "anyType", "ANY"),
   (xsd_qname "anySimpleType", "ANYSIMPLE")]

/-- A type absent from `mapWitness` whose base type is present. -/
def tWitChild : MXsdType := ⟨some "child", some ⟨some "base"⟩, false⟩

/-- A type absent from `mapWitness` with no base type. -/
def tWitNoBase : MXsdType := ⟨some "orphan", none, false⟩

/-- Key membership characterized by the keys list. -/
theorem keyMem_iff {u : DepMap} {i : Nat} :
    keyMem u i = true ↔ ∃ k ∈ keysOf u, XsdType.id k = i := by
  induction u with
  | nil => simp [keyMem, lookupDeps, keysOf]
  | cons q rest ih =>
    obtain ⟨t, ds⟩ := q
    by_cases h : t.id = i
    · constructor
      · intro _
        exact ⟨t, by simp [keysOf], h⟩
      · intro _
        simp [keyMem, lookupDeps, h]
    · constructor
      · intro hk
        have hk' : keyMem rest i = true := by
          simpa [keyMem, lookupDeps, h] using hk
        obtain ⟨k, hkm, hki⟩ := ih.mp hk'
        exact ⟨k, by simp [keysOf] at hkm ⊢; exact Or.inr hkm, hki⟩
      · rintro ⟨k, hkm, hki⟩
        simp [keysOf] at hkm
        rcases hkm with rfl | hkm'
        · exact absurd hki h
        · have := ih.mpr ⟨k, by simpa [keysOf] using hkm', hki⟩
          simpa [keyMem, lookupDeps, h] using this

/-- Lists with the same keys agree on key membership. -/
theorem keyMem_eq_of_keysOf_eq {u v : DepMap} (h : keysOf u = keysOf v)
    (i : Nat) : keyMem u i = keyMem v i := by
  cases hu : keyMem u i <;> cases hv : keyMem v i
  · rfl
  · obtain ⟨k, hk, hki⟩ := keyMem_iff.mp hv
    rw [← h] at hk
    rw [keyMem_iff.mpr ⟨k, hk, hki⟩] at hu
    exact hu.symm
  · obtain ⟨k, hk, hki⟩ := keyMem_iff.mp hu
    rw [h] at hk
    rw [keyMem_iff.mpr ⟨k, hk, hki⟩] at hv
    exact hv
  · rfl

/-- The filtering pass keeps the keys (and their order). -/
theorem keysOf_filterDeps (u : DepMap) : keysOf (filterDeps u) = keysOf u := by
  simp [keysOf, filterDeps]

/-- The dependency-building pass keeps the keys (and their order). -/
theorem keysOf_buildDeps (u : DepMap) : keysOf (buildDeps u) = keysOf u := by
  simp [keysOf, buildDeps]

/-- The filtering pass keeps key membership. -/
theorem keyMem_filterDeps (u : DepMap) (i : Nat) :
    keyMem (filterDeps u) i = keyMem u i :=
  keyMem_eq_of_keysOf_eq (keysOf_filterDeps u) i

/-- The dependency-building pass keeps key membership. -/
theorem keyMem_buildDeps (u : DepMap) (i : Nat) :
    keyMem (buildDeps u) i = keyMem u i :=
  keyMem_eq_of_keysOf_eq (keysOf_buildDeps u) i

/-- The filtering pass keeps the size of the working set. -/
theorem filterDeps_length (u : DepMap) : (filterDeps u).length = u.length := by
  simp [filterDeps]

/-- A successful lookup splits the working set around the first entry with
the looked-up identity; erasure removes exactly that entry. -/
theorem lookupDeps_split {u : DepMap} {i : Nat} {ds : List Nat}
    (h : lookupDeps u i = some ds) :
    ∃ u1 t u2, u = u1 ++ (t, ds) :: u2 ∧ t.id = i ∧
      (∀ p ∈ u1, (p : XsdType × List Nat).1.id ≠ i) ∧ eraseKey u i = u1 ++ u2 := by
  induction u with
  | nil => simp [lookupDeps] at h
  | cons q rest ih =>
    obtain ⟨t, ds'⟩ := q
    by_cases ht : t.id = i
    · have hds : ds' = ds := by simpa [lookupDeps, ht] using h
      subst hds
      exact ⟨[], t, rest, by simp, ht, by simp, by simp [eraseKey, ht]⟩
    · have h' : lookupDeps rest i = some ds := by simpa [lookupDeps, ht] using h
      obtain ⟨u1, t', u2, hu, hid, hfirst, herase⟩ := ih h'
      refine ⟨(t, ds') :: u1, t', u2, by simp [hu], hid, ?_, ?_⟩
      · intro p hp
        rcases List.mem_cons.mp hp with rfl | hp'
        · exact ht
        · exact hfirst p hp'
      · simp [eraseKey, ht, herase]

/-- Erasure yields a sublist of the working set. -/
theorem eraseKey_sublist (u : DepMap) (i : Nat) : List.Sublist (eraseKey u i) u := by
  induction u with
  | nil => simp [eraseKey]
  | cons q rest ih =>
    obtain ⟨t, ds⟩ := q
    by_cases ht : t.id = i
    · simp [eraseKey, ht]
    · simpa [eraseKey, ht] using ih.cons₂ (t, ds)

/-- Erasing a present key removes exactly one entry. -/
theorem eraseKey_length {u : DepMap} {i : Nat} (h : keyMem u i = true) :
    (eraseKey u i).length + 1 = u.length := by
  obtain ⟨ds, hds⟩ := Option.isSome_iff_exists.mp h
  obtain ⟨u1, t, u2, hu, _, _, herase⟩ := lookupDeps_split hds
  rw [herase, hu]
  simp
  omega

/-- A successful lookup exposes a matching entry of the working set. -/
theorem lookupDeps_some_mem {u : DepMap} {i : Nat} {ds : List Nat}
    (h : lookupDeps u i = some ds) : ∃ t, (t, ds) ∈ u ∧ t.id = i := by
  obtain ⟨u1, t, u2, hu, hid, _, _⟩ := lookupDeps_split h
  exact ⟨t, by rw [hu]; simp, hid⟩

/-- Erasing the entry found with an empty value keeps every entry with a
nonempty value. -/
theorem mem_eraseKey_of_ne_nil {u : DepMap} {i : Nat} {p : XsdType × List Nat}
    (hl : lookupDeps u i = some []) (hp : p ∈ u) (hne : p.2 ≠ []) :
    p ∈ eraseKey u i := by
  obtain ⟨u1, t, u2, hu, _, _, herase⟩ := lookupDeps_split hl
  rw [herase]
  rw [hu] at hp
  rcases List.mem_append.mp hp with h1 | h2
  · exact List.mem_append.mpr (Or.inl h1)
  · rcases List.mem_cons.mp h2 with rfl | h3
    · exact absurd rfl hne
    · exact List.mem_append.mpr (Or.inr h3)

/-- Looking up a different identity is unaffected by erasure. -/
theorem lookupDeps_eraseKey_ne {u : DepMap} {i j : Nat} (h : i ≠ j) :
    lookupDeps (eraseKey u j) i = lookupDeps u i := by
  induction u with
  | nil => simp [eraseKey]
  | cons q rest ih =>
    obtain ⟨t, ds⟩ := q
    have hji : ¬j = i := fun e => h e.symm
    by_cases ht : t.id = j
    · have hti : t.id ≠ i := by rw [ht]; exact fun e => h e.symm
      simp [eraseKey, ht, lookupDeps, hti, hji]
    · by_cases hti : t.id = i
      · simp [eraseKey, ht, lookupDeps, hti, h, hji]
      · simp [eraseKey, ht, lookupDeps, hti, h, hji, ih]

/-- Every removal pass deletes exactly as many keys as it collects. -/
theorem removeReady_length (xs : List XsdType) (u : DepMap) :
    (removeReady xs u).1.length + (removeReady xs u).2.length = u.length := by
  induction xs generalizing u with
  | nil => simp [removeReady]
  | cons x rest ih =>
    cases hl : lookupDeps u x.id with
    | none => simp [removeReady, hl, ih]
    | some ds =>
      cases hds : ds.isEmpty with
      | false => simp [removeReady, hl, hds, ih]
      | true =>
        have hk : keyMem u x.id = true := by simp [keyMem, hl]
        have hlen := eraseKey_length hk
        have := ih (eraseKey u x.id)
        simp [removeReady, hl, hds]
        omega

/-- The removal pass leaves a sublist of the working set. -/
theorem removeReady_sublist (xs : List XsdType) (u : DepMap) :
    List.Sublist (removeReady xs u).2 u := by
  induction xs generalizing u with
  | nil => simp [removeReady]
  | cons x rest ih =>
    cases hl : lookupDeps u x.id with
    | none => simpa [removeReady, hl] using ih u
    | some ds =>
      cases hds : ds.isEmpty with
      | false => simpa [removeReady, hl, hds] using ih u
      | true =>
        have h1 := ih (eraseKey u x.id)
        have h2 := eraseKey_sublist u x.id
        simpa [removeReady, hl, hds] using h1.trans h2

/-- Entries with a nonempty dependency list survive the removal pass. -/
theorem removeReady_preserve {xs : List XsdType} {u : DepMap}
    {p : XsdType × List Nat} (hp : p ∈ u) (hne : p.2 ≠ []) :
    p ∈ (removeReady xs u).2 := by
  induction xs generalizing u with
  | nil => simpa [removeReady] using hp
  | cons x rest ih =>
    cases hl : lookupDeps u x.id with
    | none => simpa [removeReady, hl] using ih hp
    | some ds =>
      cases hds : ds.isEmpty with
      | false => simpa [removeReady, hl, hds] using ih hp
      | true =>
        have hds' : ds = [] := List.isEmpty_iff.mp hds
        subst hds'
        have hmem : p ∈ eraseKey u x.id := mem_eraseKey_of_ne_nil hl hp hne
        simpa [removeReady, hl] using ih hmem

/-- Every collected type comes from the input list and had an empty-valued
entry keyed by its identity in the working set. -/
theorem removeReady_ready_mem {xs : List XsdType} {u : DepMap} {y : XsdType}
    (hy : y ∈ (removeReady xs u).1) :
    y ∈ xs ∧ ∃ t, (t, ([] : List Nat)) ∈ u ∧ t.id = y.id := by
  induction xs generalizing u with
  | nil => simp [removeReady] at hy
  | cons x rest ih =>
    cases hl : lookupDeps u x.id with
    | none =>
      obtain ⟨h1, t, ht, hid⟩ := ih (by simpa [removeReady, hl] using hy)
      exact ⟨List.mem_cons_of_mem x h1, t, ht, hid⟩
    | some ds =>
      cases hds : ds.isEmpty with
      | false =>
        obtain ⟨h1, t, ht, hid⟩ := ih (by simpa [removeReady, hl, hds] using hy)
        exact ⟨List.mem_cons_of_mem x h1, t, ht, hid⟩
      | true =>
        have hds' : ds = [] := List.isEmpty_iff.mp hds
        subst hds'
        have hy' : y = x ∨ y ∈ (removeReady rest (eraseKey u x.id)).1 := by
          simpa [removeReady, hl] using hy
        rcases hy' with rfl | hy''
        · obtain ⟨t, ht, hid⟩ := lookupDeps_some_mem hl
          exact ⟨List.mem_cons_self y rest, t, ht, hid⟩
        · obtain ⟨h1, t, ht, hid⟩ := ih hy''
          exact ⟨List.mem_cons_of_mem x h1,
            t, (eraseKey_sublist u x.id).subset ht, hid⟩

/-- When an entry with the given identity has a nonempty value and key
identities are unique, no collected type carries that identity. -/
theorem removeReady_ready_id_ne {xs : List XsdType} {u : DepMap}
    {t : XsdType} {ds : List Nat} (hnd : (keyIds u).Nodup)
    (hp : (t, ds) ∈ u) (hne : ds ≠ []) :
    ∀ y ∈ (removeReady xs u).1, y.id ≠ t.id := by
  intro y hy hid
  obtain ⟨-, t', ht', hid'⟩ := removeReady_ready_mem hy
  have hnd2 : (u.map (fun p => (p : XsdType × List Nat).1.id)).Nodup := hnd
  have hinj := List.inj_on_of_nodup_map hnd2
  have : (t', ([] : List Nat)) = (t, ds) := hinj ht' hp (by simp [hid', hid])
  have : ds = [] := by
    have h2 := congrArg Prod.snd this
    simpa using h2.symm
  exact hne this

/-- With pairwise distinct input identities the collected list is exactly the
input filtered to the currently-ready types, in input order. -/
theorem removeReady_ready_eq {xs : List XsdType} {u : DepMap}
    (hnd : (xs.map XsdType.id).Nodup) :
    (removeReady xs u).1 = xs.filter (readyNow u) := by
  induction xs generalizing u with
  | nil => simp [removeReady]
  | cons x rest ih =>
    have hnd' : (rest.map XsdType.id).Nodup := (List.nodup_cons.mp hnd).2
    have hx : x.id ∉ rest.map XsdType.id := (List.nodup_cons.mp hnd).1
    cases hl : lookupDeps u x.id with
    | none => simp [removeReady, hl, readyNow, ih hnd']
    | some ds =>
      cases hds : ds.isEmpty with
      | false => simp [removeReady, hl, hds, readyNow, ih hnd']
      | true =>
        have hcong : rest.filter (readyNow (eraseKey u x.id)) = rest.filter (readyNow u) := by
          apply List.filter_congr
          intro y hyr
          have hne : y.id ≠ x.id := by
            intro e
            exact hx (e ▸ List.mem_map_of_mem XsdType.id hyr)
          simp [readyNow, lookupDeps_eraseKey_ne hne]
        simp [removeReady, hl, hds, readyNow, ih hnd', hcong]

/-- The keys of the working set are the collected types followed by the
surviving keys, up to permutation, whenever identities are faithful. -/
theorem removeReady_perm {xs : List XsdType} {u : DepMap}
    (hco : idCoherentWith xs u) :
    List.Perm (keysOf u) ((removeReady xs u).1 ++ keysOf (removeReady xs u).2) := by
  induction xs generalizing u with
  | nil => simp [removeReady]
  | cons x rest ih =>
    have hco' : idCoherentWith rest u := fun z hz => hco z (List.mem_cons_of_mem x hz)
    cases hl : lookupDeps u x.id with
    | none => simpa [removeReady, hl] using ih hco'
    | some ds =>
      cases hds : ds.isEmpty with
      | false => simpa [removeReady, hl, hds] using ih hco'
      | true =>
        have hds' : ds = [] := List.isEmpty_iff.mp hds
        subst hds'
        obtain ⟨u1, t, u2, hu, hid, -, herase⟩ := lookupDeps_split hl
        have htx : x = t :=
          hco x (List.mem_cons_self x rest) (t, []) (by rw [hu]; simp) hid.symm
        have hcoe : idCoherentWith rest (eraseKey u x.id) := fun z hz p hp =>
          hco' z hz p ((eraseKey_sublist u x.id).subset hp)
        have hperm1 : List.Perm (keysOf u) (x :: keysOf (eraseKey u x.id)) := by
          rw [herase, hu, htx]
          simp only [keysOf, List.map_append, List.map_cons]
          exact List.perm_middle
        have hperm2 := ih hcoe
        simpa [removeReady, hl] using hperm1.trans (hperm2.cons x)

/-- Key identities of a sublist working set stay key identities. -/
theorem keyMem_mono_sublist {u v : DepMap} (h : List.Sublist v u) {i : Nat}
    (hv : keyMem v i = true) : keyMem u i = true := by
  obtain ⟨k, hk, hki⟩ := keyMem_iff.mp hv
  exact keyMem_iff.mpr ⟨k, (h.map Prod.fst).subset hk, hki⟩

/-- Entries of the filtered working set come from entries of the unfiltered
one. -/
theorem mem_filterDeps_exists {u : DepMap} {p : XsdType × List Nat}
    (hp : p ∈ filterDeps u) :
    ∃ q ∈ u, p = ((q : XsdType × List Nat).1, q.2.filter (fun d => keyMem u d)) := by
  obtain ⟨q, hq, he⟩ := List.mem_map.mp hp
  exact ⟨q, hq, he.symm⟩

/-- Identity faithfulness restricts along a shrunken key set. -/
theorem idCoherentWith_of_keys_subset {xs : List XsdType} {u v : DepMap}
    (h : idCoherentWith xs u) (hsub : keysOf v ⊆ keysOf u) :
    idCoherentWith xs v := by
  intro x hx p hp hid
  have hk : p.1 ∈ keysOf u := hsub (List.mem_map_of_mem Prod.fst hp)
  obtain ⟨q, hq, hq1⟩ := List.mem_map.mp hk
  exact (h x hx q hq (by rw [hid, hq1])).trans hq1

/-- The working set built by the dependency-building pass satisfies the
loop invariant. -/
theorem depInv_buildDeps (u0 : DepMap) : depInv (buildDeps u0) := by
  intro p hp
  obtain ⟨q, hq, he⟩ := List.mem_map.mp hp
  rw [← he]
  simp only
  exact List.filter_congr (fun d _ => (keyMem_buildDeps u0 d).symm)

/-- One loop iteration (removal pass followed by filtering pass) preserves
the loop invariant. -/
theorem depInv_step {xs : List XsdType} {u : DepMap} (h : depInv u) :
    depInv (filterDeps (removeReady xs u).2) := by
  intro p hp
  obtain ⟨q, hq, he⟩ := mem_filterDeps_exists hp
  have hqu : q ∈ u := (removeReady_sublist xs u).subset hq
  have hval := h q hqu
  subst he
  simp only
  rw [hval, List.filter_filter]
  apply List.filter_congr
  intro d _
  have hmem := keyMem_filterDeps (removeReady xs u).2 d
  cases hv : keyMem (removeReady xs u).2 d with
  | false => simp [hmem, hv]
  | true => simp [hmem, hv, keyMem_mono_sublist (removeReady_sublist xs u) hv]

/-- When a pass collects nothing, the working set is unchanged by it. -/
theorem removeReady_nil_eq {xs : List XsdType} {u : DepMap}
    (h : (removeReady xs u).1 = []) : (removeReady xs u).2 = u := by
  have hlen := removeReady_length xs u
  rw [h] at hlen
  simp at hlen
  exact (removeReady_sublist xs u).eq_of_length hlen

/-- The loop always answers within one iteration per working-set entry plus
one: every iteration that continues deletes at least one entry. -/
theorem sortLoopF_isSome (f : Nat) (xs : List XsdType) (acc : Bool)
    (ordered : List XsdType) (u : DepMap) (h : u.length < f) :
    (sortLoopF f xs acc ordered u).isSome = true := by
  induction f generalizing ordered u with
  | zero => omega
  | succ n ih =>
    cases u with
    | nil => simp [sortLoopF]
    | cons q rest =>
      cases hr : (removeReady xs (q :: rest)).1.isEmpty with
      | true => cases acc <;> simp [sortLoopF, hr]
      | false =>
        have hne : (removeReady xs (q :: rest)).1 ≠ [] := by
          intro e
          rw [e] at hr
          simp at hr
        have hpos : 0 < (removeReady xs (q :: rest)).1.length :=
          List.length_pos.mpr hne
        have hlen := removeReady_length xs (q :: rest)
        have hbound : (filterDeps (removeReady xs (q :: rest)).2).length < n := by
          rw [filterDeps_length]
          simp at h hlen
          omega
        simpa [sortLoopF, hr] using ih _ _ hbound

/-- A successful loop answer extends the already-ordered output. -/
theorem sortLoopF_ok_decomp (f : Nat) (xs : List XsdType) (acc : Bool)
    (ordered : List XsdType) (u : DepMap) (l : List XsdType)
    (h : sortLoopF f xs acc ordered u = some (Except.ok l)) :
    ∃ t, l = ordered ++ t := by
  induction f generalizing ordered u with
  | zero => simp [sortLoopF] at h
  | succ n ih =>
    cases u with
    | nil =>
      have : ordered = l := by simpa [sortLoopF] using h
      exact ⟨[], by simp [this]⟩
    | cons q rest =>
      cases hr : (removeReady xs (q :: rest)).1.isEmpty with
      | true =>
        cases acc with
        | true =>
          have : ordered ++ keysOf (filterDeps (removeReady xs (q :: rest)).2) = l := by
            simpa [sortLoopF, hr] using h
          exact ⟨_, this.symm⟩
        | false => simp [sortLoopF, hr] at h
      | false =>
        have h' : sortLoopF n xs acc (ordered ++ (removeReady xs (q :: rest)).1)
            (filterDeps (removeReady xs (q :: rest)).2) = some (Except.ok l) := by
          simpa [sortLoopF, hr] using h
        obtain ⟨t, ht⟩ := ih _ _ h'
        exact ⟨(removeReady xs (q :: rest)).1 ++ t, by simp [ht]⟩

/-- A successful loop answer is, up to permutation, the ordered output
followed by the working-set keys. -/
theorem sortLoopF_ok_perm (f : Nat) (xs : List XsdType) (acc : Bool)
    (ordered : List XsdType) (u : DepMap) (l : List XsdType)
    (hco : idCoherentWith xs u)
    (h : sortLoopF f xs acc ordered u = some (Except.ok l)) :
    List.Perm l (ordered ++ keysOf u) := by
  induction f generalizing ordered u with
  | zero => simp [sortLoopF] at h
  | succ n ih =>
    cases u with
    | nil =>
      have : ordered = l := by simpa [sortLoopF] using h
      simp [← this, keysOf]
    | cons q rest =>
      cases hr : (removeReady xs (q :: rest)).1.isEmpty with
      | true =>
        have hnil : (removeReady xs (q :: rest)).1 = [] := List.isEmpty_iff.mp hr
        have hsame := removeReady_nil_eq hnil
        cases acc with
        | true =>
          have hl : ordered ++ keysOf (filterDeps (removeReady xs (q :: rest)).2) = l := by
            simpa [sortLoopF, hr] using h
          rw [← hl, keysOf_filterDeps, hsame]
        | false => simp [sortLoopF, hr] at h
      | false =>
        have h' : sortLoopF n xs acc (ordered ++ (removeReady xs (q :: rest)).1)
            (filterDeps (removeReady xs (q :: rest)).2) = some (Except.ok l) := by
          simpa [sortLoopF, hr] using h
        have hsub : keysOf (filterDeps (removeReady xs (q :: rest)).2) ⊆
            keysOf (q :: rest) := by
          rw [keysOf_filterDeps]
          exact ((removeReady_sublist xs (q :: rest)).map Prod.fst).subset
        have hco' := idCoherentWith_of_keys_subset hco hsub
        have hperm1 := ih _ _ hco' h'
        have hperm2 := removeReady_perm hco
        rw [keysOf_filterDeps] at hperm1
        rw [List.append_assoc] at hperm1
        exact hperm1.trans (hperm2.symm.append_left ordered)

/-- With circularity acceptance the loop always answers successfully. -/
theorem sortLoopF_true_ok (f : Nat) (xs : List XsdType)
    (ordered : List XsdType) (u : DepMap) (h : u.length < f) :
    ∃ l, sortLoopF f xs true ordered u = some (Except.ok l) := by
  induction f generalizing ordered u with
  | zero => omega
  | succ n ih =>
    cases u with
    | nil => exact ⟨ordered, by simp [sortLoopF]⟩
    | cons q rest =>
      cases hr : (removeReady xs (q :: rest)).1.isEmpty with
      | true =>
        exact ⟨ordered ++ keysOf (filterDeps (removeReady xs (q :: rest)).2),
          by simp [sortLoopF, hr]⟩
      | false =>
        have hne : (removeReady xs (q :: rest)).1 ≠ [] := by
          intro e
          rw [e] at hr
          simp at hr
        have hpos : 0 < (removeReady xs (q :: rest)).1.length :=
          List.length_pos.mpr hne
        have hlen := removeReady_length xs (q :: rest)
        have hbound : (filterDeps (removeReady xs (q :: rest)).2).length < n := by
          rw [filterDeps_length]
          simp at h hlen
          omega
        obtain ⟨l, hl⟩ := ih (ordered ++ (removeReady xs (q :: rest)).1) _ hbound
        exact ⟨l, by simpa [sortLoopF, hr] using hl⟩

/-- Types collected by a pass are keys of the working set (under identity
faithfulness), hence structured when all keys are. -/
theorem removeReady_ready_structured {xs : List XsdType} {u : DepMap}
    (hco : idCoherentWith xs u)
    (hks : ∀ k ∈ keysOf u, XsdType.structured k = true) :
    ∀ y ∈ (removeReady xs u).1, XsdType.structured y = true := by
  intro y hy
  obtain ⟨hyx, t, hmem, hid⟩ := removeReady_ready_mem hy
  have hyt : y = t := hco y hyx (t, []) hmem hid.symm
  rw [hyt]
  exact hks t (List.mem_map_of_mem Prod.fst hmem)

/-- A successful loop answer extends the ordered output with structured
types only, when all working-set keys are structured. -/
theorem sortLoopF_ok_structured_tail (f : Nat) (xs : List XsdType) (acc : Bool)
    (ordered : List XsdType) (u : DepMap) (l : List XsdType)
    (hco : idCoherentWith xs u)
    (hks : ∀ k ∈ keysOf u, XsdType.structured k = true)
    (h : sortLoopF f xs acc ordered u = some (Except.ok l)) :
    ∃ t, l = ordered ++ t ∧ ∀ y ∈ t, XsdType.structured y = true := by
  induction f generalizing ordered u with
  | zero => simp [sortLoopF] at h
  | succ n ih =>
    cases u with
    | nil =>
      have : ordered = l := by simpa [sortLoopF] using h
      exact ⟨[], by simp [this], by simp⟩
    | cons q rest =>
      cases hr : (removeReady xs (q :: rest)).1.isEmpty with
      | true =>
        cases acc with
        | true =>
          have hl : ordered ++ keysOf (filterDeps (removeReady xs (q :: rest)).2) = l := by
            simpa [sortLoopF, hr] using h
          refine ⟨_, hl.symm, ?_⟩
          intro y hy
          rw [keysOf_filterDeps] at hy
          exact hks y (((removeReady_sublist xs (q :: rest)).map Prod.fst).subset hy)
        | false => simp [sortLoopF, hr] at h
      | false =>
        have h' : sortLoopF n xs acc (ordered ++ (removeReady xs (q :: rest)).1)
            (filterDeps (removeReady xs (q :: rest)).2) = some (Except.ok l) := by
          simpa [sortLoopF, hr] using h
        have hsub : keysOf (filterDeps (removeReady xs (q :: rest)).2) ⊆
            keysOf (q :: rest) := by
          rw [keysOf_filterDeps]
          exact ((removeReady_sublist xs (q :: rest)).map Prod.fst).subset
        obtain ⟨t2, ht2, hst2⟩ := ih _ _ (idCoherentWith_of_keys_subset hco hsub)
          (fun k hk => hks k (hsub hk)) h'
        refine ⟨(removeReady xs (q :: rest)).1 ++ t2, by simp [ht2], ?_⟩
        intro y hy
        rcases List.mem_append.mp hy with hy1 | hy2
        · exact removeReady_ready_structured hco hks y hy1
        · exact hst2 y hy2

/-- Inserting a key either leaves the keys unchanged or appends the new
key. -/
theorem keysOf_insertKey (u : DepMap) (x : XsdType) :
    keysOf (insertKey u x) = keysOf u ∨ keysOf (insertKey u x) = keysOf u ++ [x] := by
  unfold insertKey
  by_cases h : keyMem u x.id = true
  · left
    simp [h]
  · right
    simp [keysOf, Bool.not_eq_true _ ▸ h]

/-- Existing keys survive an insertion. -/
theorem keysOf_subset_insertKey (u : DepMap) (x : XsdType) :
    keysOf u ⊆ keysOf (insertKey u x) := by
  rcases keysOf_insertKey u x with h | h
  · rw [h]
    exact fun a ha => ha
  · rw [h]
    exact List.subset_append_left _ _

/-- Keys produced by the working-set comprehension come from the
accumulator or are structured input members. -/
theorem initFold_keys_subset : ∀ (xs : List XsdType) (acc : DepMap),
    ∀ k ∈ keysOf (xs.foldl (fun u x => if x.structured then insertKey u x else u) acc),
      k ∈ keysOf acc ∨ (k ∈ xs ∧ XsdType.structured k = true) := by
  intro xs
  induction xs with
  | nil =>
    intro acc k hk
    exact Or.inl hk
  | cons x rest ih =>
    intro acc k hk
    simp only [List.foldl_cons] at hk
    by_cases hs : x.structured = true
    · rw [if_pos hs] at hk
      rcases ih (insertKey acc x) k hk with hk1 | hk2
      · rcases keysOf_insertKey acc x with he | he
        · rw [he] at hk1
          exact Or.inl hk1
        · rw [he] at hk1
          rcases List.mem_append.mp hk1 with h1 | h2
          · exact Or.inl h1
          · have : k = x := by simpa using h2
            exact Or.inr ⟨this ▸ List.mem_cons_self x rest, this ▸ hs⟩
      · exact Or.inr ⟨List.mem_cons_of_mem x hk2.1, hk2.2⟩
    · rw [if_neg hs] at hk
      rcases ih acc k hk with hk1 | hk2
      · exact Or.inl hk1
      · exact Or.inr ⟨List.mem_cons_of_mem x hk2.1, hk2.2⟩

/-- A structured input member ends up a key of the comprehension, under
identity faithfulness. -/
theorem initFold_mem : ∀ (xs : List XsdType) (acc : DepMap) (A : XsdType),
    (A ∈ keysOf acc ∨ (A ∈ xs ∧ XsdType.structured A = true)) →
    (∀ x ∈ xs, x.id = A.id → x = A) →
    (∀ k ∈ keysOf acc, k.id = A.id → k = A) →
    A ∈ keysOf (xs.foldl (fun u x => if x.structured then insertKey u x else u) acc) := by
  intro xs
  induction xs with
  | nil =>
    intro acc A hA _ _
    rcases hA with h | h
    · exact h
    · exact absurd h.1 (List.not_mem_nil A)
  | cons x rest ih =>
    intro acc A hA hxs hacc
    simp only [List.foldl_cons]
    have hacc' : ∀ k ∈ keysOf (if x.structured = true then insertKey acc x else acc),
        k.id = A.id → k = A := by
      intro k hk hid
      by_cases hs : x.structured = true
      · rw [if_pos hs] at hk
        rcases keysOf_insertKey acc x with he | he
        · exact hacc k (he ▸ hk) hid
        · rw [he] at hk
          rcases List.mem_append.mp hk with h1 | h2
          · exact hacc k h1 hid
          · have hkx : k = x := by simpa using h2
            exact hkx ▸ hxs x (List.mem_cons_self x rest) (hkx ▸ hid)
      · rw [if_neg hs] at hk
        exact hacc k hk hid
    have hxs' : ∀ z ∈ rest, z.id = A.id → z = A :=
      fun z hz => hxs z (List.mem_cons_of_mem x hz)
    rcases hA with hAacc | ⟨hAmem, hAst⟩
    · refine ih _ A (Or.inl ?_) hxs' hacc'
      by_cases hs : x.structured = true
      · rw [if_pos hs]
        exact keysOf_subset_insertKey acc x hAacc
      · rw [if_neg hs]
        exact hAacc
    · rcases List.mem_cons.mp hAmem with rfl | hArest
      · refine ih _ A (Or.inl ?_) hxs' hacc'
        rw [if_pos hAst]
        unfold insertKey
        by_cases hm : keyMem acc A.id = true
        · obtain ⟨k, hk, hki⟩ := keyMem_iff.mp hm
          have : k = A := hacc k hk hki
          simp [hm]
          exact this ▸ hk
        · rw [if_neg hm]
          simp [keysOf]
      · exact ih _ A (Or.inr ⟨hArest, hAst⟩) hxs' hacc'

/-- Key identities are the identities of the keys. -/
theorem keyIds_eq (u : DepMap) : keyIds u = (keysOf u).map XsdType.id := by
  simp [keyIds, keysOf, List.map_map]

/-- Key membership is membership among key identities. -/
theorem keyMem_iff_mem_keyIds {u : DepMap} {i : Nat} :
    keyMem u i = true ↔ i ∈ keyIds u := by
  rw [keyIds_eq]
  constructor
  · intro h
    obtain ⟨k, hk, hki⟩ := keyMem_iff.mp h
    exact List.mem_map.mpr ⟨k, hk, hki⟩
  · intro h
    obtain ⟨k, hk, hki⟩ := List.mem_map.mp h
    exact keyMem_iff.mpr ⟨k, hk, hki⟩

/-- The working-set comprehension never duplicates a key identity. -/
theorem initFold_ids_nodup : ∀ (xs : List XsdType) (acc : DepMap),
    (keyIds acc).Nodup →
    (keyIds (xs.foldl (fun u x => if x.structured then insertKey u x else u) acc)).Nodup := by
  intro xs
  induction xs with
  | nil => intro acc h; exact h
  | cons x rest ih =>
    intro acc h
    simp only [List.foldl_cons]
    by_cases hs : x.structured = true
    · rw [if_pos hs]
      apply ih
      unfold insertKey
      by_cases hm : keyMem acc x.id = true
      · rw [if_pos hm]
        exact h
      · rw [if_neg hm]
        have hni : x.id ∉ keyIds acc := fun hin =>
          hm (keyMem_iff_mem_keyIds.mpr hin)
        simp [keyIds, List.nodup_append]
        refine ⟨by simpa [keyIds] using h, by simpa [keyIds] using hni⟩
    · rw [if_neg hs]
      exact ih acc h

/-- With pairwise distinct identities, the comprehension's keys are exactly
the structured input members in input order. -/
theorem initFold_keys_eq : ∀ (xs : List XsdType) (acc : DepMap),
    (((keysOf acc ++ xs).map XsdType.id)).Nodup →
    keysOf (xs.foldl (fun u x => if x.structured then insertKey u x else u) acc) =
      keysOf acc ++ xs.filter XsdType.structured := by
  intro xs
  induction xs with
  | nil => intro acc _; simp
  | cons x rest ih =>
    intro acc hnd
    simp only [List.foldl_cons]
    by_cases hs : x.structured = true
    · rw [if_pos hs]
      have hmf : keyMem acc x.id = false := by
        cases hmm : keyMem acc x.id with
        | false => rfl
        | true =>
          exfalso
          have hx : x.id ∈ (keysOf acc).map XsdType.id := by
            rw [← keyIds_eq]
            exact keyMem_iff_mem_keyIds.mp hmm
          have hnd2 : ((keysOf acc).map XsdType.id ++
              x.id :: rest.map XsdType.id).Nodup := by
            simpa using hnd
          have hdisj := (List.nodup_append.mp hnd2).2.2
          exact hdisj hx (List.mem_cons_self _ _)
      have hins : insertKey acc x = acc ++ [(x, [])] := by
        unfold insertKey
        rw [hmf]
        simp
      rw [hins]
      have hkeys : keysOf (acc ++ [(x, [])]) = keysOf acc ++ [x] := by
        simp [keysOf]
      have hnd3 : ((keysOf (acc ++ [(x, [])]) ++ rest).map XsdType.id).Nodup := by
        rw [hkeys, List.append_assoc, List.singleton_append]
        exact hnd
      rw [ih _ hnd3, hkeys]
      simp [hs]
    · rw [if_neg hs]
      have hnd' : ((keysOf acc ++ rest).map XsdType.id).Nodup := by
        have hsub : List.Sublist ((keysOf acc ++ rest).map XsdType.id)
            ((keysOf acc ++ x :: rest).map XsdType.id) :=
          ((List.sublist_cons_self x rest).append_left (keysOf acc)).map XsdType.id
        exact hnd.sublist hsub
      rw [ih _ hnd']
      simp [hs]

/-- The three classification buckets partition the input. -/
theorem bucket_partition_perm (xs : List XsdType) :
    List.Perm (xs.filter (fun x => x.is_simple) ++
      xs.filter (fun x => x.is_complex && x.has_simple_content) ++
      xs.filter XsdType.structured) xs := by
  induction xs with
  | nil => simp
  | cons x rest ih =>
    by_cases h1 : x.is_simple = true
    · have h2 : (x.is_complex && x.has_simple_content) = false := by
        simp [XsdType.is_complex, h1]
      have h3 : x.structured = false := by
        simp [XsdType.structured, XsdType.is_complex, h1]
      simpa [List.filter_cons, h1, h2, h3] using ih.cons x
    · have hc : x.is_complex = true := by
        simp [XsdType.is_complex]
        exact Bool.not_eq_true _ ▸ h1
      by_cases h2 : x.has_simple_content = true
      · have hb : (x.is_complex && x.has_simple_content) = true := by simp [hc, h2]
        have h3 : x.structured = false := by simp [XsdType.structured, hc, h2]
        have hstep : List.Perm
            (rest.filter (fun x => x.is_simple) ++
              x :: rest.filter (fun x => x.is_complex && x.has_simple_content))
            (x :: (rest.filter (fun x => x.is_simple) ++
              rest.filter (fun x => x.is_complex && x.has_simple_content))) :=
          List.perm_middle
        simpa [List.filter_cons, h1, hb, h3] using
          (hstep.append_right (rest.filter XsdType.structured)).trans (ih.cons x)
      · have hb : (x.is_complex && x.has_simple_content) = false := by simp [h2]
        have h3 : x.structured = true := by
          simp [XsdType.structured, hc, h2]
        have hstep : List.Perm
            ((rest.filter (fun x => x.is_simple) ++
              rest.filter (fun x => x.is_complex && x.has_simple_content)) ++
              x :: rest.filter XsdType.structured)
            (x :: ((rest.filter (fun x => x.is_simple) ++
              rest.filter (fun x => x.is_complex && x.has_simple_content)) ++
              rest.filter XsdType.structured)) := List.perm_middle
        simpa [List.filter_cons, h1, hb, h3] using hstep.trans (ih.cons x)

/-- A successful sort exposes a successful loop answer of the input's
length. -/
theorem sorted_types_ok_elim {xs : List XsdType} {acc : Bool} {l : List XsdType}
    (h : sorted_types xs acc = Except.ok l) :
    sortLoopF ((buildDeps (initUnordered xs)).length + 1) xs acc
      (xs.filter (fun x => x.is_simple) ++
        xs.filter (fun x => x.is_complex && x.has_simple_content))
      (buildDeps (initUnordered xs)) = some (Except.ok l) ∧
      l.length = xs.length := by
  have h' : (match sortLoopF ((buildDeps (initUnordered xs)).length + 1) xs acc
      (xs.filter (fun x => x.is_simple) ++
        xs.filter (fun x => x.is_complex && x.has_simple_content))
      (buildDeps (initUnordered xs)) with
    | none => Except.error (SortError.lengthAssert xs.length 0)
    | some (Except.error stuck) => Except.error (SortError.circularity stuck)
    | some (Except.ok result) =>
      if result.length = xs.length then Except.ok result
      else Except.error (SortError.lengthAssert xs.length result.length)) =
      Except.ok l := h
  cases hm : sortLoopF ((buildDeps (initUnordered xs)).length + 1) xs acc
      (xs.filter (fun x => x.is_simple) ++
        xs.filter (fun x => x.is_complex && x.has_simple_content))
      (buildDeps (initUnordered xs)) with
  | none =>
    rw [hm] at h'
    simp at h'
  | some r =>
    rw [hm] at h'
    cases r with
    | error stuck => simp at h'
    | ok result =>
      by_cases hlen : result.length = xs.length
      · have : result = l := by simpa [hlen] using h'
        subst this
        exact ⟨rfl, hlen⟩
      · simp [hlen] at h'

/-- A successful loop answer of the right length yields a successful sort. -/
theorem sorted_types_eq_of_loop_ok {xs : List XsdType} {acc : Bool}
    {result : List XsdType}
    (hm : sortLoopF ((buildDeps (initUnordered xs)).length + 1) xs acc
      (xs.filter (fun x => x.is_simple) ++
        xs.filter (fun x => x.is_complex && x.has_simple_content))
      (buildDeps (initUnordered xs)) = some (Except.ok result))
    (hlen : result.length = xs.length) :
    sorted_types xs acc = Except.ok result := by
  show (match sortLoopF ((buildDeps (initUnordered xs)).length + 1) xs acc
      (xs.filter (fun x => x.is_simple) ++
        xs.filter (fun x => x.is_complex && x.has_simple_content))
      (buildDeps (initUnordered xs)) with
    | none => Except.error (SortError.lengthAssert xs.length 0)
    | some (Except.error stuck) => Except.error (SortError.circularity stuck)
    | some (Except.ok result) =>
      if result.length = xs.length then Except.ok result
      else Except.error (SortError.lengthAssert xs.length result.length)) =
      Except.ok result
  rw [hm]
  simp [hlen]

/-- A stuck loop yields the circularity error carrying the stuck set. -/
theorem sorted_types_eq_of_loop_error {xs : List XsdType} {acc : Bool}
    {stuck : List XsdType}
    (hm : sortLoopF ((buildDeps (initUnordered xs)).length + 1) xs acc
      (xs.filter (fun x => x.is_simple) ++
        xs.filter (fun x => x.is_complex && x.has_simple_content))
      (buildDeps (initUnordered xs)) = some (Except.error stuck)) :
    sorted_types xs acc = Except.error (SortError.circularity stuck) := by
  show (match sortLoopF ((buildDeps (initUnordered xs)).length + 1) xs acc
      (xs.filter (fun x => x.is_simple) ++
        xs.filter (fun x => x.is_complex && x.has_simple_content))
      (buildDeps (initUnordered xs)) with
    | none => Except.error (SortError.lengthAssert xs.length 0)
    | some (Except.error stuck) => Except.error (SortError.circularity stuck)
    | some (Except.ok result) =>
      if result.length = xs.length then Except.ok result
      else Except.error (SortError.lengthAssert xs.length result.length)) =
      Except.error (SortError.circularity stuck)
  rw [hm]

/-- Keys of the initial working set are structured input members. -/
theorem init_keys_spec (xs : List XsdType) :
    ∀ k ∈ keysOf (initUnordered xs), k ∈ xs ∧ XsdType.structured k = true := by
  intro k hk
  rcases initFold_keys_subset xs [] k hk with h | h
  · simp [keysOf] at h
  · exact h

/-- Identity faithfulness of the input carries to the built working set. -/
theorem buildDeps_init_coherent {xs : List XsdType} (hco : idCoherent xs) :
    idCoherentWith xs (buildDeps (initUnordered xs)) := by
  intro x hx p hp hid
  have hk : p.1 ∈ keysOf (buildDeps (initUnordered xs)) :=
    List.mem_map_of_mem Prod.fst hp
  rw [keysOf_buildDeps] at hk
  exact hco x hx p.1 (init_keys_spec xs p.1 hk).1 hid

/-- Every structured input member is a key of the initial working set, under
identity faithfulness. -/
theorem init_mem {xs : List XsdType} {A : XsdType} (hco : idCoherent xs)
    (hA : A ∈ xs) (hst : XsdType.structured A = true) :
    A ∈ keysOf (initUnordered xs) := by
  refine initFold_mem xs [] A (Or.inr ⟨hA, hst⟩) ?_ ?_
  · intro x hx hid
    exact hco x hx A hA hid
  · intro k hk
    simp [keysOf] at hk

/-- With pairwise distinct identities the initial keys are exactly the
structured input members, in input order. -/
theorem init_keys_eq {xs : List XsdType} (hnd : idsNodup xs) :
    keysOf (initUnordered xs) = xs.filter XsdType.structured := by
  have := initFold_keys_eq xs [] (by simpa [keysOf] using hnd)
  simpa [keysOf] using this

/-- The initial working set never duplicates a key identity. -/
theorem init_ids_nodup (xs : List XsdType) :
    (keyIds (initUnordered xs)).Nodup :=
  initFold_ids_nodup xs [] (by simp [keyIds])

/-- Entries with a different identity survive an erasure. -/
theorem mem_eraseKey_of_id_ne {u : DepMap} {i : Nat} {p : XsdType × List Nat}
    (hp : p ∈ u) (hne : p.1.id ≠ i) : p ∈ eraseKey u i := by
  induction u with
  | nil => simp at hp
  | cons q rest ih =>
    obtain ⟨t, ds⟩ := q
    by_cases ht : t.id = i
    · rcases List.mem_cons.mp hp with rfl | hp'
      · exact absurd ht hne
      · simpa [eraseKey, ht] using hp'
    · rcases List.mem_cons.mp hp with rfl | hp'
      · simp [eraseKey, ht]
      · simp [eraseKey, ht]
        exact Or.inr (ih hp')

/-- The filtering pass keeps the key identities. -/
theorem keyIds_filterDeps (u : DepMap) : keyIds (filterDeps u) = keyIds u := by
  rw [keyIds_eq, keyIds_eq, keysOf_filterDeps]

/-- Key identities of a sublist working set form a sublist. -/
theorem keyIds_sublist {u v : DepMap} (h : List.Sublist v u) :
    List.Sublist (keyIds v) (keyIds u) := by
  rw [keyIds_eq, keyIds_eq]
  exact (h.map Prod.fst).map XsdType.id

/-- An input member whose unique entry is currently empty-valued is
collected by the removal pass. -/
theorem removeReady_takes {xs : List XsdType} {u : DepMap} {t : XsdType}
    (hnd : (keyIds u).Nodup) (hco : idCoherentWith xs u)
    (hp : (t, ([] : List Nat)) ∈ u) (ht : t ∈ xs) :
    t ∈ (removeReady xs u).1 := by
  induction xs generalizing u with
  | nil => simp at ht
  | cons x rest ih =>
    have hco' : idCoherentWith rest u := fun z hz => hco z (List.mem_cons_of_mem x hz)
    by_cases hxt : x.id = t.id
    · have hx : x = t := hco x (List.mem_cons_self x rest) (t, []) hp hxt
      subst hx
      have hk : keyMem u x.id = true :=
        keyMem_iff.mpr ⟨x, List.mem_map_of_mem Prod.fst hp, rfl⟩
      obtain ⟨ds, hl⟩ := Option.isSome_iff_exists.mp hk
      obtain ⟨t', ht', hti⟩ := lookupDeps_some_mem hl
      have hnd2 : (u.map (fun p => (p : XsdType × List Nat).1.id)).Nodup := hnd
      have hinj := List.inj_on_of_nodup_map hnd2
      have : (t', ds) = (x, ([] : List Nat)) := hinj ht' hp (by simp [hti])
      have hds : ds = [] := congrArg Prod.snd this
      subst hds
      simp [removeReady, hl]
    · rcases List.mem_cons.mp ht with rfl | htr
      · exact absurd rfl hxt
      · cases hl : lookupDeps u x.id with
        | none => simpa [removeReady, hl] using ih hnd hco' hp htr
        | some ds =>
          cases hds : ds.isEmpty with
          | false => simpa [removeReady, hl, hds] using ih hnd hco' hp htr
          | true =>
            have hds' : ds = [] := List.isEmpty_iff.mp hds
            subst hds'
            have hp' : (t, ([] : List Nat)) ∈ eraseKey u x.id :=
              mem_eraseKey_of_id_ne hp (by simpa using fun e => hxt e.symm)
            have hnd' : (keyIds (eraseKey u x.id)).Nodup :=
              hnd.sublist (keyIds_sublist (eraseKey_sublist u x.id))
            have hcoe : idCoherentWith rest (eraseKey u x.id) := fun z hz p hp2 =>
              hco' z hz p ((eraseKey_sublist u x.id).subset hp2)
            have := ih hnd' hcoe hp' htr
            simp [removeReady, hl]
            exact Or.inr this

/-- A working set containing a closed nonempty cycle never resolves: the
loop raises the circularity error. -/
theorem sortLoopF_stuck (f : Nat) (xs : List XsdType) (ordered : List XsdType)
    (u : DepMap) (S : List XsdType)
    (hf : u.length < f) (hinv : depInv u) (hS : S ≠ [])
    (hSk : ∀ s ∈ S, s ∈ keysOf u)
    (hScyc : ∀ s ∈ S, ∃ t ∈ S, t.id ∈ s.content_elems) :
    ∃ stuck, sortLoopF f xs false ordered u = some (Except.error stuck) := by
  induction f generalizing ordered u with
  | zero => omega
  | succ n ih =>
    obtain ⟨s0, hs0⟩ := List.exists_mem_of_ne_nil S hS
    have hs0k := hSk s0 hs0
    cases u with
    | nil => simp [keysOf] at hs0k
    | cons q rest =>
      have hentry : ∀ s ∈ S, ∃ ds, (s, ds) ∈ (q :: rest) ∧ ds ≠ [] := by
        intro s hs
        obtain ⟨p, hp, hp1⟩ := List.mem_map.mp (hSk s hs)
        obtain ⟨t, htS, htid⟩ := hScyc s hs
        have hkt : keyMem (q :: rest) t.id = true :=
          keyMem_iff.mpr ⟨t, hSk t htS, rfl⟩
        have hval := hinv p hp
        refine ⟨p.2, ?_, ?_⟩
        · have hpe : (p.1, p.2) ∈ q :: rest := by simpa using hp
          rwa [hp1] at hpe
        · rw [hval, hp1]
          exact List.ne_nil_of_mem (List.mem_filter.mpr ⟨htid, hkt⟩)
      cases hr : (removeReady xs (q :: rest)).1.isEmpty with
      | true =>
        exact ⟨keysOf (filterDeps (removeReady xs (q :: rest)).2),
          by simp [sortLoopF, hr]⟩
      | false =>
        have hSk' : ∀ s ∈ S, s ∈ keysOf (filterDeps (removeReady xs (q :: rest)).2) := by
          intro s hs
          obtain ⟨ds, hp, hne⟩ := hentry s hs
          have hsur : (s, ds) ∈ (removeReady xs (q :: rest)).2 :=
            removeReady_preserve hp hne
          rw [keysOf_filterDeps]
          exact List.mem_map_of_mem Prod.fst hsur
        have hne : (removeReady xs (q :: rest)).1 ≠ [] := by
          intro e
          rw [e] at hr
          simp at hr
        have hpos : 0 < (removeReady xs (q :: rest)).1.length :=
          List.length_pos.mpr hne
        have hlen := removeReady_length xs (q :: rest)
        have hbound : (filterDeps (removeReady xs (q :: rest)).2).length < n := by
          rw [filterDeps_length]
          simp at hf hlen
          omega
        obtain ⟨stuck, hst⟩ := ih _ _ hbound (depInv_step hinv) hSk'
        exact ⟨stuck, by simpa [sortLoopF, hr] using hst⟩

/-- If the working set holds both a type and one of its content
dependencies, a successful strict loop emits the dependency strictly
earlier. -/
theorem sortLoopF_dep_before (f : Nat) (xs ordered : List XsdType) (u : DepMap)
    (A B : XsdType) (l : List XsdType)
    (hco : idCoherentWith xs u) (hinv : depInv u) (hnd : (keyIds u).Nodup)
    (hkx : ∀ k ∈ keysOf u, k ∈ xs)
    (hA : A ∈ keysOf u) (hB : B ∈ keysOf u) (hAB : B.id ∈ A.content_elems)
    (h : sortLoopF f xs false ordered u = some (Except.ok l)) :
    ∃ t, l = ordered ++ t ∧ List.Sublist [B, A] t := by
  induction f generalizing ordered u with
  | zero => simp [sortLoopF] at h
  | succ n ih =>
    cases u with
    | nil => simp [keysOf] at hA
    | cons q rest =>
      obtain ⟨pA, hpA, hpA1⟩ := List.mem_map.mp hA
      have hBk : keyMem (q :: rest) B.id = true := keyMem_iff.mpr ⟨B, hB, rfl⟩
      have hdsAne : pA.2 ≠ [] := by
        rw [hinv pA hpA, hpA1]
        exact List.ne_nil_of_mem (List.mem_filter.mpr ⟨hAB, hBk⟩)
      have hpAe : (pA.1, pA.2) ∈ q :: rest := by simpa using hpA
      have hApres : (pA.1, pA.2) ∈ (removeReady xs (q :: rest)).2 :=
        removeReady_preserve hpAe hdsAne
      cases hr : (removeReady xs (q :: rest)).1.isEmpty with
      | true => simp [sortLoopF, hr] at h
      | false =>
        have h' : sortLoopF n xs false
            (ordered ++ (removeReady xs (q :: rest)).1)
            (filterDeps (removeReady xs (q :: rest)).2) = some (Except.ok l) := by
          simpa [sortLoopF, hr] using h
        have hsubkeys : keysOf (filterDeps (removeReady xs (q :: rest)).2) ⊆
            keysOf (q :: rest) := by
          rw [keysOf_filterDeps]
          exact ((removeReady_sublist xs (q :: rest)).map Prod.fst).subset
        have hco' := idCoherentWith_of_keys_subset hco hsubkeys
        have hinv' : depInv (filterDeps (removeReady xs (q :: rest)).2) :=
          depInv_step hinv
        have hnd' : (keyIds (filterDeps (removeReady xs (q :: rest)).2)).Nodup := by
          rw [keyIds_filterDeps]
          exact hnd.sublist (keyIds_sublist (removeReady_sublist xs (q :: rest)))
        have hkx' : ∀ k ∈ keysOf (filterDeps (removeReady xs (q :: rest)).2), k ∈ xs :=
          fun k hk => hkx k (hsubkeys hk)
        have hA' : A ∈ keysOf (filterDeps (removeReady xs (q :: rest)).2) := by
          rw [keysOf_filterDeps, ← hpA1]
          exact List.mem_map_of_mem Prod.fst hApres
        by_cases hBr : B ∈ (removeReady xs (q :: rest)).1
        · obtain ⟨t2, ht2⟩ := sortLoopF_ok_decomp n xs false _ _ l h'
          have hperm := sortLoopF_ok_perm n xs false _ _ l hco' h'
          rw [ht2] at hperm
          have ht2p : List.Perm t2
              (keysOf (filterDeps (removeReady xs (q :: rest)).2)) :=
            (List.perm_append_left_iff _).mp hperm
          have hAt2 : A ∈ t2 := ht2p.mem_iff.mpr hA'
          refine ⟨(removeReady xs (q :: rest)).1 ++ t2,
            by rw [ht2, List.append_assoc], ?_⟩
          exact (List.singleton_sublist.mpr hBr).append
            (List.singleton_sublist.mpr hAt2)
        · obtain ⟨pB, hpB, hpB1⟩ := List.mem_map.mp hB
          have hpBe : (pB.1, pB.2) ∈ q :: rest := by simpa using hpB
          have hdsBne : pB.2 ≠ [] := by
            intro e
            apply hBr
            have hpB0 : (B, ([] : List Nat)) ∈ q :: rest := by
              rw [← hpB1, ← e]
              exact hpBe
            exact removeReady_takes hnd hco hpB0 (hkx B hB)
          have hBpres : (pB.1, pB.2) ∈ (removeReady xs (q :: rest)).2 :=
            removeReady_preserve hpBe hdsBne
          have hB' : B ∈ keysOf (filterDeps (removeReady xs (q :: rest)).2) := by
            rw [keysOf_filterDeps, ← hpB1]
            exact List.mem_map_of_mem Prod.fst hBpres
          obtain ⟨t2, ht2, hsub⟩ := ih _ _ hco' hinv' hnd' hkx' hA' hB' h'
          refine ⟨(removeReady xs (q :: rest)).1 ++ t2,
            by rw [ht2, List.append_assoc], ?_⟩
          exact hsub.trans (List.sublist_append_right _ _)

/-- Pairwise distinct identities give identity faithfulness. -/
theorem idCoherent_of_idsNodup {xs : List XsdType} (h : idsNodup xs) :
    idCoherent xs :=
  fun _ hx _ hy hid => List.inj_on_of_nodup_map h hx hy hid

/-- Key identities after dependency building are those of the comprehension. -/
theorem keyIds_buildDeps (u : DepMap) : keyIds (buildDeps u) = keyIds u := by
  rw [keyIds_eq, keysOf_buildDeps, ← keyIds_eq]

/-- C1 (amended with pairwise-distinct input elements): with
`accept_circularity=True` the sort succeeds and returns a permutation of the
input; with `accept_circularity=False`, any closed cycle among structured
members (a nonempty set each of whose members references another member)
forces the circularity error. -/
theorem sorted_types_perm_and_cycle (xs : List XsdType) (hnd : idsNodup xs) :
    (∃ l, sorted_types xs true = Except.ok l ∧ List.Perm l xs) ∧
    (∀ S : List XsdType, S ≠ [] →
      (∀ s ∈ S, s ∈ xs ∧ XsdType.structured s = true) →
      (∀ s ∈ S, ∃ t ∈ S, t.id ∈ s.content_elems) →
      ∃ stuck, sorted_types xs false = Except.error (SortError.circularity stuck)) := by
  have hco : idCoherent xs := idCoherent_of_idsNodup hnd
  have hcow := buildDeps_init_coherent hco
  constructor
  · obtain ⟨l, hl⟩ := sortLoopF_true_ok ((buildDeps (initUnordered xs)).length + 1)
      xs (xs.filter (fun x => x.is_simple) ++
        xs.filter (fun x => x.is_complex && x.has_simple_content))
      (buildDeps (initUnordered xs)) (Nat.lt_succ_self _)
    have hperm := sortLoopF_ok_perm _ _ _ _ _ _ hcow hl
    have hxs : List.Perm l xs := by
      rw [keysOf_buildDeps, init_keys_eq hnd] at hperm
      exact hperm.trans (bucket_partition_perm xs)
    exact ⟨l, sorted_types_eq_of_loop_ok hl hxs.length_eq, hxs⟩
  · intro S hS hSm hScyc
    have hSk : ∀ s ∈ S, s ∈ keysOf (buildDeps (initUnordered xs)) := by
      intro s hs
      rw [keysOf_buildDeps]
      exact init_mem hco (hSm s hs).1 (hSm s hs).2
    obtain ⟨stuck, hst⟩ := sortLoopF_stuck
      ((buildDeps (initUnordered xs)).length + 1) xs
      (xs.filter (fun x => x.is_simple) ++
        xs.filter (fun x => x.is_complex && x.has_simple_content))
      (buildDeps (initUnordered xs)) S (Nat.lt_succ_self _)
      (depInv_buildDeps _) hS hSk hScyc
    exact ⟨stuck, sorted_types_eq_of_loop_error hst⟩

/-- C1 counterexample: on an input listing the same structured type object
twice, the sort with `accept_circularity=True` does not return a
permutation; the working-set dictionary collapses the duplicate and the
final length assertion fails. -/
theorem sorted_types_dup_not_perm :
    sorted_types [tPlain, tPlain] true =
      Except.error (SortError.lengthAssert 2 1) := rfl

/-- C1 witness: the amended theorem applied to a concrete mutually-referent
pair. -/
theorem sorted_types_perm_and_cycle_witness :
    (∃ l, sorted_types [tRefOne, tRefZero] true = Except.ok l ∧
      List.Perm l [tRefOne, tRefZero]) ∧
    (∃ stuck, sorted_types [tRefOne, tRefZero] false =
      Except.error (SortError.circularity stuck)) := by
  have h := sorted_types_perm_and_cycle [tRefOne, tRefZero]
    (by unfold idsNodup; decide)
  exact ⟨h.1, h.2 [tRefOne, tRefZero] (by decide) (by decide) (by decide)⟩

/-- C3: in a strict (`accept_circularity=False`) successful sort, a
structured member appears strictly after any structured member its content
directly references. -/
theorem sorted_types_dep_before (xs : List XsdType) (A B : XsdType)
    (l : List XsdType) (hco : idCoherent xs)
    (hA : A ∈ xs) (hB : B ∈ xs)
    (hsA : XsdType.structured A = true) (hsB : XsdType.structured B = true)
    (hdep : B.id ∈ A.content_elems)
    (h : sorted_types xs false = Except.ok l) :
    List.Sublist [B, A] l := by
  obtain ⟨hm, -⟩ := sorted_types_ok_elim h
  have hcow := buildDeps_init_coherent hco
  have hndk : (keyIds (buildDeps (initUnordered xs))).Nodup := by
    rw [keyIds_buildDeps]
    exact init_ids_nodup xs
  have hkx : ∀ k ∈ keysOf (buildDeps (initUnordered xs)), k ∈ xs := by
    intro k hk
    rw [keysOf_buildDeps] at hk
    exact (init_keys_spec xs k hk).1
  have hAk : A ∈ keysOf (buildDeps (initUnordered xs)) := by
    rw [keysOf_buildDeps]
    exact init_mem hco hA hsA
  have hBk : B ∈ keysOf (buildDeps (initUnordered xs)) := by
    rw [keysOf_buildDeps]
    exact init_mem hco hB hsB
  obtain ⟨t, ht, hsub⟩ := sortLoopF_dep_before _ xs _ _ A B l hcow
    (depInv_buildDeps _) hndk hkx hAk hBk hdep hm
  rw [ht]
  exact hsub.trans (List.sublist_append_right _ _)

/-- C3 witness: the dependency-ordering theorem applied to a concrete
two-type chain. -/
theorem sorted_types_dep_before_witness :
    List.Sublist [tWitD, tWitE] [tWitD, tWitE] :=
  sorted_types_dep_before [tWitE, tWitD] tWitE tWitD [tWitD, tWitE]
    (by unfold idCoherent; decide) (by decide) (by decide) (by decide)
    (by decide) (by decide) rfl

/-- C4: a successful sort opens with the simple types in input order, then
the complex types with simple content in input order, and closes with
structured complex types only. -/
theorem sorted_types_bucket_order (xs : List XsdType) (acc : Bool)
    (l : List XsdType) (hco : idCoherent xs)
    (h : sorted_types xs acc = Except.ok l) :
    ∃ t, l = xs.filter (fun x => x.is_simple) ++
      xs.filter (fun x => x.is_complex && x.has_simple_content) ++ t ∧
      ∀ y ∈ t, XsdType.is_complex y = true ∧ y.has_simple_content = false := by
  obtain ⟨hm, -⟩ := sorted_types_ok_elim h
  have hcow := buildDeps_init_coherent hco
  have hks : ∀ k ∈ keysOf (buildDeps (initUnordered xs)),
      XsdType.structured k = true := by
    intro k hk
    rw [keysOf_buildDeps] at hk
    exact (init_keys_spec xs k hk).2
  obtain ⟨t, ht, hst⟩ := sortLoopF_ok_structured_tail _ _ _ _ _ _ hcow hks hm
  refine ⟨t, ht, ?_⟩
  intro y hy
  have := hst y hy
  simpa [XsdType.structured] using this

/-- C4 witness: the bucket-order theorem applied to a concrete mixed
input. -/
theorem sorted_types_bucket_order_witness :
    ∃ t, [tWitS, tWitCS, tWitD, tWitE] =
      ([tWitE, tWitCS, tWitS, tWitD].filter (fun x => x.is_simple)) ++
      ([tWitE, tWitCS, tWitS, tWitD].filter
        (fun x => x.is_complex && x.has_simple_content)) ++ t ∧
      ∀ y ∈ t, XsdType.is_complex y = true ∧ y.has_simple_content = false :=
  sorted_types_bucket_order [tWitE, tWitCS, tWitS, tWitD] false
    [tWitS, tWitCS, tWitD, tWitE] (by unfold idCoherent; decide) rfl

/-- C2: for two structured complex types that each reference the other,
strict sorting raises the circularity error naming exactly both, and
tolerant sorting returns exactly the two types. -/
theorem sorted_types_two_cycle (A B : XsdType)
    (hsA : A.is_simple = false) (hhA : A.has_simple_content = false)
    (hsB : B.is_simple = false) (hhB : B.has_simple_content = false)
    (hAB : B.id ∈ A.content_elems) (hBA : A.id ∈ B.content_elems)
    (hne : A.id ≠ B.id) :
    sorted_types [A, B] false = Except.error (SortError.circularity [A, B]) ∧
    sorted_types [A, B] true = Except.ok [A, B] := by
  have hstA : XsdType.structured A = true := by
    simp [XsdType.structured, XsdType.is_complex, hsA, hhA]
  have hstB : XsdType.structured B = true := by
    simp [XsdType.structured, XsdType.is_complex, hsB, hhB]
  have hu0 : initUnordered [A, B] = [(A, []), (B, [])] := by
    simp [initUnordered, hstA, hstB, insertKey, keyMem, lookupDeps, hne]
  have hkA : keyMem [(A, ([] : List Nat)), (B, [])] A.id = true := by
    simp [keyMem, lookupDeps]
  have hkB : keyMem [(A, ([] : List Nat)), (B, [])] B.id = true := by
    simp [keyMem, lookupDeps, hne]
  have hu1 : buildDeps (initUnordered [A, B]) =
      [(A, A.content_elems.filter (fun d => keyMem [(A, []), (B, [])] d)),
       (B, B.content_elems.filter (fun d => keyMem [(A, []), (B, [])] d))] := by
    rw [hu0]
    simp [buildDeps]
  have hdsAne : A.content_elems.filter (fun d => keyMem [(A, []), (B, [])] d) ≠ [] :=
    List.ne_nil_of_mem (List.mem_filter.mpr ⟨hAB, hkB⟩)
  have hdsBne : B.content_elems.filter (fun d => keyMem [(A, []), (B, [])] d) ≠ [] :=
    List.ne_nil_of_mem (List.mem_filter.mpr ⟨hBA, hkA⟩)
  have hEA : (A.content_elems.filter (fun d => keyMem [(A, []), (B, [])] d)).isEmpty = false := by
    cases he : (A.content_elems.filter (fun d => keyMem [(A, []), (B, [])] d)).isEmpty with
    | false => rfl
    | true => exact absurd (List.isEmpty_iff.mp he) hdsAne
  have hEB : (B.content_elems.filter (fun d => keyMem [(A, []), (B, [])] d)).isEmpty = false := by
    cases he : (B.content_elems.filter (fun d => keyMem [(A, []), (B, [])] d)).isEmpty with
    | false => rfl
    | true => exact absurd (List.isEmpty_iff.mp he) hdsBne
  have hrr : removeReady [A, B]
      [(A, A.content_elems.filter (fun d => keyMem [(A, []), (B, [])] d)),
       (B, B.content_elems.filter (fun d => keyMem [(A, []), (B, [])] d))] =
      ([], [(A, A.content_elems.filter (fun d => keyMem [(A, []), (B, [])] d)),
            (B, B.content_elems.filter (fun d => keyMem [(A, []), (B, [])] d))]) := by
    simp [removeReady, lookupDeps, hne, hEA, hEB]
  constructor
  · apply sorted_types_eq_of_loop_error
    rw [hu1]
    simp only [List.length_cons, List.length_nil, List.filter_cons, hsA, hsB,
      Bool.false_and, hhA, hhB, XsdType.is_complex, Bool.not_false,
      Bool.true_and, List.filter_nil]
    show sortLoopF (0 + 1 + 1 + 1) [A, B] false ([] ++ []) _ =
      some (Except.error [A, B])
    simp [sortLoopF, hrr, filterDeps, keysOf]
  · apply sorted_types_eq_of_loop_ok
    · rw [hu1]
      simp only [List.length_cons, List.length_nil, List.filter_cons, hsA, hsB,
        Bool.false_and, hhA, hhB, XsdType.is_complex, Bool.not_false,
        Bool.true_and, List.filter_nil]
      show sortLoopF (0 + 1 + 1 + 1) [A, B] true ([] ++ []) _ =
        some (Except.ok [A, B])
      simp [sortLoopF, hrr, filterDeps, keysOf]
    · rfl

/-- C2 witness: the two-cycle theorem applied to a concrete pair. -/
theorem sorted_types_two_cycle_witness :
    sorted_types [tRefOne, tRefZero] false =
      Except.error (SortError.circularity [tRefOne, tRefZero]) ∧
    sorted_types [tRefOne, tRefZero] true = Except.ok [tRefOne, tRefZero] :=
  sorted_types_two_cycle tRefOne tRefZero rfl rfl rfl rfl
    (by decide) (by decide) (by decide)

/-- A successful loop answer of a wrong length makes the sort fail the
length assertion. -/
theorem sorted_types_eq_of_loop_badlen {xs : List XsdType} {acc : Bool}
    {result : List XsdType}
    (hm : sortLoopF ((buildDeps (initUnordered xs)).length + 1) xs acc
      (xs.filter (fun x => x.is_simple) ++
        xs.filter (fun x => x.is_complex && x.has_simple_content))
      (buildDeps (initUnordered xs)) = some (Except.ok result))
    (hlen : ¬ result.length = xs.length) :
    sorted_types xs acc =
      Except.error (SortError.lengthAssert xs.length result.length) := by
  show (match sortLoopF ((buildDeps (initUnordered xs)).length + 1) xs acc
      (xs.filter (fun x => x.is_simple) ++
        xs.filter (fun x => x.is_complex && x.has_simple_content))
      (buildDeps (initUnordered xs)) with
    | none => Except.error (SortError.lengthAssert xs.length 0)
    | some (Except.error stuck) => Except.error (SortError.circularity stuck)
    | some (Except.ok result) =>
      if result.length = xs.length then Except.ok result
      else Except.error (SortError.lengthAssert xs.length result.length)) =
      Except.error (SortError.lengthAssert xs.length result.length)
  rw [hm]
  simp [hlen]

/-- A duplicate-free list included in a duplicated list is strictly
shorter. -/
theorem length_lt_of_nodup_subset {l1 l2 : List Nat} (h1 : l1.Nodup)
    (hsub : l1 ⊆ l2) (h2 : ¬ l2.Nodup) : l1.length < l2.length := by
  have hc1 : l1.toFinset.card = l1.length := List.toFinset_card_of_nodup h1
  have hsubf : l1.toFinset ⊆ l2.toFinset := by
    intro a ha
    simp only [List.mem_toFinset] at ha ⊢
    exact hsub ha
  have hc2 : l2.toFinset.card = l2.dedup.length := List.card_toFinset l2
  have hdlt : l2.dedup.length < l2.length := by
    rcases Nat.lt_or_ge l2.dedup.length l2.length with hlt | hge
    · exact hlt
    · exfalso
      have hs := List.dedup_sublist l2
      have he : l2.dedup = l2 := hs.eq_of_length (Nat.le_antisymm hs.length_le hge)
      exact h2 (he ▸ l2.nodup_dedup)
  calc l1.length = l1.toFinset.card := hc1.symm
    _ ≤ l2.toFinset.card := Finset.card_le_card hsubf
    _ = l2.dedup.length := hc2
    _ < l2.length := hdlt

/-- Initial key identities come from the structured input members. -/
theorem keyIds_init_subset (xs : List XsdType) :
    keyIds (initUnordered xs) ⊆ (xs.filter XsdType.structured).map XsdType.id := by
  intro i hi
  rw [keyIds_eq] at hi
  obtain ⟨k, hk, hki⟩ := List.mem_map.mp hi
  obtain ⟨hkx, hkst⟩ := init_keys_spec xs k hk
  exact List.mem_map.mpr ⟨k, List.mem_filter.mpr ⟨hkx, hkst⟩, hki⟩

/-- C8: an input repeating a structured complex type object is collapsed by
the working-set dictionary, and the tolerant sort ends in the length
assertion failure instead of returning a same-length permutation. -/
theorem sorted_types_dup_assert (xs : List XsdType) (A : XsdType)
    (hco : idCoherent xs) (hst : XsdType.structured A = true)
    (hcount : 2 ≤ xs.count A) :
    ∃ m, m < xs.length ∧
      sorted_types xs true = Except.error (SortError.lengthAssert xs.length m) := by
  obtain ⟨l, hl⟩ := sortLoopF_true_ok ((buildDeps (initUnordered xs)).length + 1)
    xs (xs.filter (fun x => x.is_simple) ++
      xs.filter (fun x => x.is_complex && x.has_simple_content))
    (buildDeps (initUnordered xs)) (Nat.lt_succ_self _)
  have hperm := sortLoopF_ok_perm _ _ _ _ _ _ (buildDeps_init_coherent hco) hl
  have hnod : ¬ ((xs.filter XsdType.structured).map XsdType.id).Nodup := by
    intro hmap
    have hfn : (xs.filter XsdType.structured).Nodup := hmap.of_map
    have hcf : (xs.filter XsdType.structured).count A = xs.count A :=
      List.count_filter hst
    have := List.nodup_iff_count_le_one.mp hfn A
    omega
  have hklt : (keyIds (initUnordered xs)).length <
      ((xs.filter XsdType.structured).map XsdType.id).length :=
    length_lt_of_nodup_subset (init_ids_nodup xs) (keyIds_init_subset xs) hnod
  have hkeq : (keyIds (initUnordered xs)).length =
      (keysOf (buildDeps (initUnordered xs))).length := by
    rw [keyIds_eq, keysOf_buildDeps]
    simp
  have hxslen : (xs.filter (fun x => x.is_simple)).length +
      (xs.filter (fun x => x.is_complex && x.has_simple_content)).length +
      (xs.filter XsdType.structured).length = xs.length := by
    have h0 := (bucket_partition_perm xs).length_eq
    simp only [List.length_append] at h0
    omega
  have hllen : l.length < xs.length := by
    have h1 := hperm.length_eq
    simp only [List.length_append] at h1
    simp only [List.length_map] at hklt
    omega
  exact ⟨l.length, hllen,
    sorted_types_eq_of_loop_badlen hl (by omega)⟩

/-- C8 witness: the duplicate theorem applied to a concrete duplicated
structured type. -/
theorem sorted_types_dup_assert_witness :
    ∃ m, m < ([tPlain, tPlain] : List XsdType).length ∧
      sorted_types [tPlain, tPlain] true =
        Except.error (SortError.lengthAssert ([tPlain, tPlain] : List XsdType).length m) :=
  sorted_types_dup_assert [tPlain, tPlain] tPlain
    (by unfold idCoherent; decide) (by decide) (by decide)

/-- C10: the working set never grows across one loop iteration (the removal
pass deletes exactly as many entries as it collects and the filtering pass
keeps the size), and the loop yields an answer whenever the fuel exceeds the
working-set size: every continuing iteration deletes at least one entry. -/
theorem sorted_types_terminates (xs : List XsdType) (acc : Bool)
    (ordered : List XsdType) (u : DepMap) (f : Nat) (hf : u.length < f) :
    (removeReady xs u).1.length + (removeReady xs u).2.length = u.length ∧
    (filterDeps (removeReady xs u).2).length ≤ u.length ∧
    sortLoopF f xs acc ordered u ≠ none := by
  refine ⟨removeReady_length xs u, ?_, ?_⟩
  · rw [filterDeps_length]
    have := removeReady_length xs u
    omega
  · exact Option.isSome_iff_ne_none.mp (sortLoopF_isSome f xs acc ordered u hf)

/-- C10 witness: the termination theorem applied to a concrete loop state. -/
theorem sorted_types_terminates_witness :
    (removeReady [tRefOne, tRefZero] [(tRefOne, [1])]).1.length +
      (removeReady [tRefOne, tRefZero] [(tRefOne, [1])]).2.length =
      ([(tRefOne, [1])] : DepMap).length ∧
    (filterDeps (removeReady [tRefOne, tRefZero] [(tRefOne, [1])]).2).length ≤
      ([(tRefOne, [1])] : DepMap).length ∧
    sortLoopF 2 [tRefOne, tRefZero] false [] [(tRefOne, [1])] ≠ none :=
  sorted_types_terminates [tRefOne, tRefZero] false [] [(tRefOne, [1])] 2
    (by decide)

/-- With unique key identities, an entry is what lookup by its key's
identity returns. -/
theorem lookupDeps_eq_of_mem_nodup {u : DepMap} {t : XsdType} {ds : List Nat}
    (hnd : (keyIds u).Nodup) (hp : (t, ds) ∈ u) :
    lookupDeps u t.id = some ds := by
  have hk : keyMem u t.id = true :=
    keyMem_iff.mpr ⟨t, List.mem_map_of_mem Prod.fst hp, rfl⟩
  obtain ⟨ds', hl⟩ := Option.isSome_iff_exists.mp hk
  obtain ⟨t', ht', hti⟩ := lookupDeps_some_mem hl
  have hnd2 : (u.map (fun p => (p : XsdType × List Nat).1.id)).Nodup := hnd
  have hinj := List.inj_on_of_nodup_map hnd2
  have heq : (t', ds') = (t, ds) := hinj ht' hp (by simp [hti])
  have hds : ds' = ds := congrArg Prod.snd heq
  rw [hl, hds]

/-- A structured input member with no in-set direct dependencies holds an
empty-valued entry in the built working set. -/
theorem init_entry_empty {xs : List XsdType} {x : XsdType} (hco : idCoherent xs)
    (hx : x ∈ xs) (hst : XsdType.structured x = true)
    (hdeps : inSetDeps xs x = []) :
    (x, ([] : List Nat)) ∈ buildDeps (initUnordered xs) := by
  have hk : x ∈ keysOf (initUnordered xs) := init_mem hco hx hst
  obtain ⟨p, hp, hp1⟩ := List.mem_map.mp hk
  have hmem : (p.1, p.1.content_elems.filter (fun d => keyMem (initUnordered xs) d)) ∈
      buildDeps (initUnordered xs) := List.mem_map.mpr ⟨p, hp, rfl⟩
  have hfe : p.1.content_elems.filter (fun d => keyMem (initUnordered xs) d) = [] := by
    rw [hp1]
    rw [List.filter_eq_nil_iff]
    intro d hd hkd
    have hpred : (xs.filter XsdType.structured).any (fun y => y.id = d) = true := by
      obtain ⟨k, hkk, hki⟩ := keyMem_iff.mp hkd
      obtain ⟨hkx, hkst⟩ := init_keys_spec xs k hkk
      exact List.any_eq_true.mpr ⟨k, List.mem_filter.mpr ⟨hkx, hkst⟩, by simp [hki]⟩
    have hin : d ∈ inSetDeps xs x := List.mem_filter.mpr ⟨hd, hpred⟩
    rw [hdeps] at hin
    exact absurd hin (List.not_mem_nil d)
  rw [hfe, hp1] at hmem
  exact hmem

/-- C6 counterexample: an input with two types that have no interdependency
(`tOrdA` references only `tOrdC`; `tOrdB` references nothing) whose relative
order is not retained by the sort: `tOrdA` precedes `tOrdB` in the input and
follows it in the output (likewise for the pair `tOrdA`, `tOrdS` across
buckets). -/
theorem sorted_types_indep_reorder :
    sorted_types ordInput false = Except.ok [tOrdS, tOrdB, tOrdC, tOrdA] ∧
    ¬ dependsOn ordInput tOrdA tOrdB ∧ ¬ dependsOn ordInput tOrdB tOrdA ∧
    ordInput.indexOf tOrdA < ordInput.indexOf tOrdB ∧
    [tOrdS, tOrdB, tOrdC, tOrdA].indexOf tOrdB <
      [tOrdS, tOrdB, tOrdC, tOrdA].indexOf tOrdA := by
  have hstepA : ∀ c, refDep ordInput tOrdA c → c = tOrdC := by
    intro c ⟨_, hc, hid⟩
    have hid3 : c.id = 3 := by simpa [tOrdA] using hid
    simp [ordInput] at hc
    rcases hc with rfl | rfl | rfl | rfl
    · simp [tOrdA] at hid3
    · simp [tOrdS] at hid3
    · simp [tOrdB] at hid3
    · rfl
  have hstepC : ∀ c, ¬ refDep ordInput tOrdC c := by
    intro c ⟨_, _, hid⟩
    simp [tOrdC] at hid
  have hstepB : ∀ c, ¬ refDep ordInput tOrdB c := by
    intro c ⟨_, _, hid⟩
    simp [tOrdB] at hid
  refine ⟨rfl, ?_, ?_, by decide, by decide⟩
  · intro h
    obtain ⟨c, hc, hrest⟩ := Relation.TransGen.head'_iff.mp h
    have hcC : c = tOrdC := hstepA c hc
    subst hcC
    rcases Relation.ReflTransGen.cases_head hrest with heq | ⟨d, hd, -⟩
    · exact (by decide : tOrdC ≠ tOrdB) heq
    · exact hstepC d hd
  · intro h
    obtain ⟨c, hc, -⟩ := Relation.TransGen.head'_iff.mp h
    exact hstepB c hc

/-- C6 (amended): two types of the same classification bucket retain their
relative input order whenever, in the structured bucket, both carry no
in-set direct dependencies (the first two buckets carry none by
construction); inputs have pairwise distinct identities. -/
theorem sorted_types_same_bucket_order (xs : List XsdType) (acc : Bool)
    (a b : XsdType) (l : List XsdType) (hnd : idsNodup xs)
    (hab : List.Sublist [a, b] xs)
    (hbucket : bucketIdx a = bucketIdx b)
    (hdeps : XsdType.structured a = true → inSetDeps xs a = [] ∧ inSetDeps xs b = [])
    (h : sorted_types xs acc = Except.ok l) :
    List.Sublist [a, b] l := by
  have hco : idCoherent xs := idCoherent_of_idsNodup hnd
  obtain ⟨hm, -⟩ := sorted_types_ok_elim h
  obtain ⟨t0, ht0⟩ := sortLoopF_ok_decomp _ _ _ _ _ _ hm
  by_cases hsa : a.is_simple = true
  · have hsb : b.is_simple = true := by
      by_contra hnb
      rw [Bool.not_eq_true] at hnb
      by_cases hcb : b.has_simple_content = true
      · simp [bucketIdx, hsa, hnb, hcb] at hbucket
      · simp [bucketIdx, hsa, hnb, hcb] at hbucket
    have h1 : List.Sublist [a, b] (xs.filter (fun x => x.is_simple)) := by
      have h2 := hab.filter (fun x => x.is_simple)
      simpa [hsa, hsb] using h2
    rw [ht0]
    exact (h1.trans (List.sublist_append_left _ _)).trans
      (List.sublist_append_left _ _)
  · rw [Bool.not_eq_true] at hsa
    by_cases hca : a.has_simple_content = true
    · have hb2 : b.is_simple = false ∧ b.has_simple_content = true := by
        by_cases hsb : b.is_simple = true
        · simp [bucketIdx, hsa, hca, hsb] at hbucket
        · rw [Bool.not_eq_true] at hsb
          by_cases hcb : b.has_simple_content = true
          · exact ⟨hsb, hcb⟩
          · simp [bucketIdx, hsa, hca, hsb, hcb] at hbucket
      have h1 : List.Sublist [a, b]
          (xs.filter (fun x => x.is_complex && x.has_simple_content)) := by
        have h2 := hab.filter (fun x => x.is_complex && x.has_simple_content)
        simpa [XsdType.is_complex, hsa, hca, hb2.1, hb2.2] using h2
      rw [ht0]
      exact ((h1.trans (List.sublist_append_right _ _)).trans
        (List.sublist_append_left _ _))
    · have hsta : XsdType.structured a = true := by
        simp [XsdType.structured, XsdType.is_complex, hsa, hca]
      have hb2 : b.is_simple = false ∧ b.has_simple_content = false := by
        by_cases hsb : b.is_simple = true
        · simp [bucketIdx, hsa, hca, hsb] at hbucket
        · rw [Bool.not_eq_true] at hsb
          by_cases hcb : b.has_simple_content = true
          · simp [bucketIdx, hsa, hca, hsb, hcb] at hbucket
          · exact ⟨hsb, Bool.not_eq_true _ ▸ hcb⟩
      have hstb : XsdType.structured b = true := by
        simp [XsdType.structured, XsdType.is_complex, hb2.1, hb2.2]
      obtain ⟨hda, hdb⟩ := hdeps hsta
      have hax : a ∈ xs := hab.subset (by simp)
      have hbx : b ∈ xs := hab.subset (by simp)
      have hea : (a, ([] : List Nat)) ∈ buildDeps (initUnordered xs) :=
        init_entry_empty hco hax hsta hda
      have heb : (b, ([] : List Nat)) ∈ buildDeps (initUnordered xs) :=
        init_entry_empty hco hbx hstb hdb
      have hndk : (keyIds (buildDeps (initUnordered xs))).Nodup := by
        rw [keyIds_buildDeps]
        exact init_ids_nodup xs
      have hra : readyNow (buildDeps (initUnordered xs)) a = true := by
        simp [readyNow, lookupDeps_eq_of_mem_nodup hndk hea]
      have hrb : readyNow (buildDeps (initUnordered xs)) b = true := by
        simp [readyNow, lookupDeps_eq_of_mem_nodup hndk heb]
      have hready : (removeReady xs (buildDeps (initUnordered xs))).1 =
          xs.filter (readyNow (buildDeps (initUnordered xs))) :=
        removeReady_ready_eq hnd
      have hsubr : List.Sublist [a, b]
          (removeReady xs (buildDeps (initUnordered xs))).1 := by
        rw [hready]
        have h2 := hab.filter (readyNow (buildDeps (initUnordered xs)))
        simpa [hra, hrb] using h2
      obtain ⟨q, rest, hqr⟩ : ∃ q rest,
          buildDeps (initUnordered xs) = q :: rest := by
        cases hh : buildDeps (initUnordered xs) with
        | nil =>
          rw [hh] at hea
          simp at hea
        | cons q rest => exact ⟨q, rest, rfl⟩
      rw [hqr] at hm hsubr
      have hrne : (removeReady xs (q :: rest)).1.isEmpty = false := by
        cases hre : (removeReady xs (q :: rest)).1.isEmpty with
        | false => rfl
        | true =>
          rw [List.isEmpty_iff.mp hre] at hsubr
          exact absurd (hsubr.subset (by simp)) (List.not_mem_nil a)
      have hm' : sortLoopF (q :: rest).length xs acc
          ((xs.filter (fun x => x.is_simple) ++
            xs.filter (fun x => x.is_complex && x.has_simple_content)) ++
            (removeReady xs (q :: rest)).1)
          (filterDeps (removeReady xs (q :: rest)).2) = some (Except.ok l) := by
        simpa [sortLoopF, hrne] using hm
      obtain ⟨t2, ht2⟩ := sortLoopF_ok_decomp _ _ _ _ _ _ hm'
      rw [ht2]
      exact (hsubr.trans (List.sublist_append_right _ _)).trans
        (List.sublist_append_left _ _)

/-- C6 witness: the amended theorem applied to two concrete dependency-free
structured types. -/
theorem sorted_types_same_bucket_order_witness :
    List.Sublist [tOrdB, tOrdC] [tOrdS, tOrdB, tOrdC, tOrdA] :=
  sorted_types_same_bucket_order ordInput false tOrdB tOrdC
    [tOrdS, tOrdB, tOrdC, tOrdA] (by unfold idsNodup; decide) (by decide)
    (by decide) (fun _ => ⟨rfl, rfl⟩) rfl

/-- C5: the full resolution chain of `map_type`: a direct hit returns the
mapped value; a miss falls back to the base type's qualified name (one level
only); a second miss returns the universal `anyType` entry for complex types
and the `anySimpleType` entry otherwise; attributes and elements resolve
through their `.type`; any other argument yields the empty string. -/
theorem map_type_chain (m : List (String × String)) (t : MXsdType) :
    (∀ v, lookupMap m t.name = some v →
      map_type m (MapArg.typeArg t) = Except.ok v) ∧
    (∀ b v, lookupMap m t.name = none → t.base_type = some b →
      lookupMap m b.name = some v →
      map_type m (MapArg.typeArg t) = Except.ok v) ∧
    (∀ b v, lookupMap m t.name = none → t.base_type = some b →
      lookupMap m b.name = none → t.is_complex = true →
      lookupMap m (some (xsd_qname "anyType")) = some v →
      map_type m (MapArg.typeArg t) = Except.ok v) ∧
    (∀ b v, lookupMap m t.name = none → t.base_type = some b →
      lookupMap m b.name = none → t.is_complex = false →
      lookupMap m (some (xsd_qname "anySimpleType")) = some v →
      map_type m (MapArg.typeArg t) = Except.ok v) ∧
    (map_type m (MapArg.attributeArg t) = map_type m (MapArg.typeArg t)) ∧
    (map_type m (MapArg.elementArg t) = map_type m (MapArg.typeArg t)) ∧
    (map_type m MapArg.otherArg = Except.ok "") := by
  refine ⟨?_, ?_, ?_, ?_, rfl, rfl, rfl⟩
  · intro v hv
    simp [map_type, hv]
  · intro b v h1 h2 h3
    simp [map_type, h1, h2, h3]
  · intro b v h1 h2 h3 h4 h5
    simp [map_type, h1, h2, h3, h4, h5]
  · intro b v h1 h2 h3 h4 h5
    simp [map_type, h1, h2, h3, h4, h5]

/-- C5 witness: the chain theorem applied at the base-type fallback level on
concrete data. -/
theorem map_type_chain_witness :
    map_type mapWitness (MapArg.typeArg tWitChild) = Except.ok "B0" :=
  (map_type_chain mapWitness tWitChild).2.1 ⟨some "base"⟩ "B0" rfl rfl rfl

/-- C9: a type whose qualified name misses the map and whose `base_type` is
`None` makes `map_type` raise `AttributeError` (reading
`xsd_type.base_type.name`) instead of reaching the universal fallback; the
same holds through attribute and element arguments. -/
theorem map_type_none_base_raises (m : List (String × String)) (t : MXsdType)
    (h1 : lookupMap m t.name = none) (h2 : t.base_type = none) :
    map_type m (MapArg.typeArg t) = Except.error MapError.attributeError ∧
    map_type m (MapArg.attributeArg t) = Except.error MapError.attributeError ∧
    map_type m (MapArg.elementArg t) = Except.error MapError.attributeError := by
  refine ⟨?_, ?_, ?_⟩ <;> simp [map_type, h1, h2]

/-- C9 witness: the `AttributeError` theorem applied on concrete data. -/
theorem map_type_none_base_raises_witness :
    map_type mapWitness (MapArg.typeArg tWitNoBase) =
      Except.error MapError.attributeError :=
  (map_type_none_base_raises mapWitness tWitNoBase rfl rfl).1

/-- C7 (code bug): on a concrete matched template with `force` set and no
existing target, `render_to_files` returns the template's filename and
prints the rendered text, but writes no file — the write statements are
commented out in the source — and in general no call ever extends the set
of written files. -/
theorem render_to_files_writes_nothing :
    render_to_files oneTemplateEnv ["types.f90.jinja"] ["types.f90.jinja"]
      "out" true [] =
      ⟨["/tpl/types.f90.jinja"], ["module types"], []⟩ ∧
    ∀ (getT : String → TemplateResult) (listT names : List String)
      (dir : String) (force : Bool) (existing : List String),
      (render_to_files getT listT names dir force existing).written = [] := by
  have hstep : ∀ (getT : String → TemplateResult) (dir : String) (force : Bool)
      (existing : List String) (acc : RenderOutcome) (name : String),
      (renderStep getT dir force existing acc name).written = acc.written := by
    intro getT dir force existing acc name
    unfold renderStep
    cases getT name with
    | notFound => rfl
    | assertError => rfl
    | found text fname =>
      simp only []
      split
      · rfl
      · rfl
  have hfold : ∀ (getT : String → TemplateResult) (dir : String) (force : Bool)
      (existing : List String) (tns : List String) (acc : RenderOutcome),
      (tns.foldl (renderStep getT dir force existing) acc).written =
        acc.written := by
    intro getT dir force existing tns
    induction tns with
    | nil => intro acc; rfl
    | cons n rest ih =>
      intro acc
      rw [List.foldl_cons, ih, hstep]
  refine ⟨rfl, ?_⟩
  intro getT listT names dir force existing
  unfold render_to_files
  exact hfold getT dir force existing _ _
